import Mathlib

/-! ufo-core: task graph transforms, input task, messenger, reduce filter, config

A shallow embedding of `ufo-task-graph.c`, `ufo-input-task.c`,
`ufo-kiro-messenger.c`, `ufo-filter-reduce.c` and `ufo-config.c`, followed
by theorems about the embedded functions.

Conventions of the embedding:
* `guint` values are natural numbers; arithmetic performed by the C code on
  them is reduced modulo `2 ^ 32` where the C code can wrap.
* A `GList` is a `List`; `g_list_nth_data l n` is `l[n]?` (it yields `NULL`,
  here `none`, when `n` is past the end of the list).
* A `GAsyncQueue` is the list of its elements, head first: `push` appends at
  the end, `pop` removes the head and blocks on the empty queue.
* C arrays indexed by a `guint` are functions on `Nat`.
* A C string is the list of its characters before the terminating NUL; a
  pointer that may be `NULL` is an `Option`. Sizes of allocations are not
  part of the embedding.
* A read through `NULL` or past the end of an array has no defined result,
  which is the outcome `undefined` or `none` of the function concerned.
-/

namespace Ufo

/-! ## Definitions: `ufo-task-graph.c`, split -/

/-- The modulus of `guint` arithmetic. -/
def GUINT_RANGE : Nat := 2 ^ 32

/-- The two operations of the graph substrate that `ufo_task_graph_split`
calls. Their bodies live in `ufo-graph.c`, so they are parameters here:
`G` is the graph, `P` the representation of a path (a `GList` of nodes). -/
structure GraphSubstrate (G P : Type) where
  /-- The call `ufo_graph_get_paths (graph, is_gpu_task)`. -/
  ufo_graph_get_paths : G → List P
  /-- The call `ufo_graph_split (graph, path)`, returning the mutated graph. -/
  ufo_graph_split : G → P → G

/-- The graph together with the sequence of `ufo_graph_split` calls made so
far (the path handed to each call, oldest first). -/
structure SplitState (G P : Type) where
  graph : G
  split_calls : List P

/-- The inner loop `for (guint i = 1; i < n_gpus; i++) ufo_graph_split (graph, path);`
started at counter value `i`. The first argument bounds the number of
iterations that are unrolled. -/
def split_loop {G P : Type} (sub : GraphSubstrate G P) (path : P) (n_gpus : Nat) :
    Nat → Nat → SplitState G P → SplitState G P
  | 0, _, s => s
  | fuel + 1, i, s =>
    if i < n_gpus then
      split_loop sub path n_gpus fuel ((i + 1) % GUINT_RANGE)
        { graph := sub.ufo_graph_split s.graph path
          split_calls := s.split_calls ++ [path] }
    else s

/-- The function `ufo_task_graph_split`: the paths are enumerated once, then the outer
loop walks the list and runs the inner loop on every entry. `n_gpus` is the
value of `ufo_arch_graph_get_num_gpus (arch_graph)`. -/
def ufo_task_graph_split {G P : Type} (sub : GraphSubstrate G P) (task_graph : G)
    (n_gpus : Nat) : SplitState G P :=
  let paths := sub.ufo_graph_get_paths task_graph
  paths.foldl (fun s path => split_loop sub path n_gpus n_gpus 1 s)
    { graph := task_graph, split_calls := [] }

/-! ### A concrete graph substrate -/

/-- Modelled from the spec: the graph of section 4.2 (the source of the graph
substrate, `ufo-graph.c`, is not part of the sources). Nodes carry an
identifier and whether they are GPU tasks; an edge is
`(source, dest, label)`. -/
structure UfoGraph where
  nodes : List (Nat × Bool)
  edges : List (Nat × Nat × Nat)
deriving DecidableEq

namespace UfoGraph

/-- Modelled from the spec: the successors of a node (section 4.2), in edge order. -/
def successors (g : UfoGraph) (n : Nat) : List Nat :=
  (g.edges.filter (fun e => e.1 == n)).map (fun e => e.2.1)

/-- Modelled from the spec: the predecessors of a node (section 4.2), in edge order. -/
def predecessors (g : UfoGraph) (n : Nat) : List Nat :=
  (g.edges.filter (fun e => e.2.1 == n)).map (fun e => e.1)

/-- The predicate `is_gpu_task` on node identifiers. -/
def is_gpu_task (g : UfoGraph) (n : Nat) : Bool :=
  g.nodes.any (fun x => x.1 == n && x.2)

/-- Modelled from the spec: the path search behind `get_paths` (section 4.2). All
maximal extensions of the path `rev.reverse` (kept reversed) through
successors that are GPU tasks and not yet on the path. -/
def extend_paths (g : UfoGraph) : Nat → List Nat → List (List Nat)
  | 0, rev => [rev.reverse]
  | fuel + 1, rev =>
    match rev with
    | [] => []
    | last :: _ =>
      let next := (g.successors last).filter (fun w => g.is_gpu_task w && !rev.contains w)
      if next.isEmpty then [rev.reverse]
      else next.flatMap (fun w => extend_paths g fuel (w :: rev))

/-- Modelled from the spec: `get_paths(predicate)` of section 4.2 for the predicate
`is_gpu_task`, "list of maximal simple node sequences whose every node
satisfies predicate". A path starts at a GPU node none of whose predecessors
is a GPU node. -/
def get_paths (g : UfoGraph) : List (List Nat) :=
  let heads := (g.nodes.filter (fun x => x.2 &&
    (g.predecessors x.1).all (fun p => !g.is_gpu_task p))).map (fun x => x.1)
  heads.flatMap (fun h => extend_paths g g.nodes.length [h])

/-- Modelled from the spec: the "new nodes" of `split(path)` (section 4.2). The
identifier given to the copy of the node at position `i` of a path is fresh,
above every identifier in use. -/
def fresh (g : UfoGraph) (i : Nat) : Nat :=
  (g.nodes.map (fun x => x.1)).foldl max 0 + 1 + i

/-- Modelled from the spec: the renaming used by `split(path)` (section 4.2), the
copy of node `n` of `path`, or `n` itself when it is not on the path. -/
def copy_of (g : UfoGraph) (path : List Nat) (n : Nat) : Nat :=
  if n ∈ path then g.fresh (path.indexOf n) else n

/-- Modelled from the spec: `split(path)` of section 4.2, "duplicates the given path
(new nodes of the same concrete types, new edges preserving labels) and
attaches it parallel to the original (same predecessor before the path head,
same successor after the tail)". -/
def split (g : UfoGraph) (path : List Nat) : UfoGraph :=
  let inner := g.edges.filter (fun e => e.1 ∈ path && e.2.1 ∈ path)
  let into_head := g.edges.filter (fun e => !(e.1 ∈ path) && path.head? == some e.2.1)
  let from_tail := g.edges.filter (fun e => path.getLast? == some e.1 && !(e.2.1 ∈ path))
  { nodes := g.nodes ++ path.map (fun n => (g.copy_of path n, g.is_gpu_task n))
    edges := g.edges ++
      (into_head ++ inner ++ from_tail).map
        (fun e => (g.copy_of path e.1, g.copy_of path e.2.1, e.2.2)) }

/-- Modelled from the spec: the paths counted by property 5 of section 8, "GPU-task
paths between the original head's predecessor and tail's successor": the GPU
paths whose head is a successor of `r` and whose tail has `s` as a
successor. -/
def paths_between (g : UfoGraph) (r s : Nat) : List (List Nat) :=
  g.get_paths.filter (fun q =>
    match q.head?, q.getLast? with
    | some h, some t => (g.successors r).contains h && (g.successors t).contains s
    | _, _ => false)

/-- The concrete substrate as a `GraphSubstrate`. -/
def substrate : GraphSubstrate UfoGraph (List Nat) where
  ufo_graph_get_paths := get_paths
  ufo_graph_split := split

end UfoGraph

/-- Scenario S3: `R → G1 → G2 → S` with `R = 0`, `G1 = 1`, `G2 = 2`, `S = 3`;
`G1` and `G2` are GPU tasks. -/
def s3_graph : UfoGraph where
  nodes := [(0, false), (1, true), (2, true), (3, false)]
  edges := [(0, 1, 0), (1, 2, 0), (2, 3, 0)]


/-! ## Definitions: `ufo-task-graph.c`, map -/

/-- What `ufo_task_graph_map` reads from the task graph. Nodes are identified
by natural numbers (their addresses). The root and successor lists come
from the graph substrate (`ufo_graph_get_roots`, `ufo_graph_get_successors`);
the three predicates are the type checks `UFO_IS_GPU_TASK`,
`UFO_IS_INPUT_TASK` and `UFO_IS_REMOTE_TASK`. -/
structure TaskGraph where
  roots : List Nat
  successors : Nat → List Nat
  is_gpu_task : Nat → Bool
  is_input_task : Nat → Bool
  is_remote_task : Nat → Bool

/-- The arch graph: `ufo_arch_graph_get_gpu_nodes` and
`ufo_arch_graph_get_remote_nodes`, over a type `N` of processing nodes. -/
structure ArchGraph (N : Type) where
  gpu_nodes : List N
  remote_nodes : List N

/-- The `proc_node` field of every task node; `none` is `NULL`. -/
abbrev ProcNodes (N : Type) := Nat → Option N

/-- Modelled from the spec: the setter of the `proc_node` attribute of a task node
(section 3; `ufo-task-node.c` is not part of the sources). The call
`ufo_task_node_set_proc_node (node, proc_node)` stores the given pointer,
`NULL` included. -/
def ufo_task_node_set_proc_node {N : Type} (procs : ProcNodes N) (node : Nat)
    (proc_node : Option N) : ProcNodes N :=
  fun n => if n = node then proc_node else procs n

/-- The ways in which a run of `map_proc_node` does not return: the remainder
`% n_gpus` with `n_gpus = 0`, or the recursion being deeper than the bound
given to the embedding. -/
inductive MapError where
  | division_by_zero
  | out_of_fuel
deriving DecidableEq

/-- The successor loop of `map_proc_node`:
`for (it = successors; it != NULL; it = next) { visit (it->data, proc_index + index); index = (index + 1) % n_gpus; }`
where `visit` is the recursive call. -/
def map_successors {N : Type} (visit : Nat → Nat → ProcNodes N → Except MapError (ProcNodes N))
    (n_gpus proc_index : Nat) :
    List Nat → Nat → ProcNodes N → Except MapError (ProcNodes N)
  | [], _, procs => .ok procs
  | succ :: rest, index, procs =>
    match visit succ ((proc_index + index) % GUINT_RANGE) procs with
    | .error e => .error e
    | .ok procs1 =>
      if n_gpus = 0 then .error .division_by_zero
      else map_successors visit n_gpus proc_index rest ((index + 1) % n_gpus) procs1

/-- The function `map_proc_node`. The first argument bounds the recursion depth. -/
def map_proc_node {N : Type} (graph : TaskGraph) (gpu_nodes remote_nodes : List N) :
    Nat → Nat → Nat → ProcNodes N → Except MapError (ProcNodes N)
  | 0, _, _, _ => .error .out_of_fuel
  | fuel + 1, node, proc_index, procs =>
    let n_gpus := gpu_nodes.length
    let successors := graph.successors node
    let procs1 :=
      if graph.is_gpu_task node then
        ufo_task_node_set_proc_node procs node gpu_nodes[proc_index]?
      else procs
    let procs2 :=
      if graph.is_input_task node then
        ufo_task_node_set_proc_node procs1 node gpu_nodes[proc_index]?
      else procs1
    let procs3 :=
      if graph.is_remote_task node then
        ufo_task_node_set_proc_node procs2 node remote_nodes[0]?
      else procs2
    map_successors (map_proc_node graph gpu_nodes remote_nodes fuel) n_gpus proc_index
      successors 0 procs3

/-- The root loop of `ufo_task_graph_map`. -/
def map_roots {N : Type} (graph : TaskGraph) (gpu_nodes remote_nodes : List N) (fuel : Nat) :
    List Nat → ProcNodes N → Except MapError (ProcNodes N)
  | [], procs => .ok procs
  | root :: rest, procs =>
    match map_proc_node graph gpu_nodes remote_nodes fuel root 0 procs with
    | .error e => .error e
    | .ok procs1 => map_roots graph gpu_nodes remote_nodes fuel rest procs1

/-- The function `ufo_task_graph_map`, with the bound on the recursion depth of
`map_proc_node` as first argument. -/
def ufo_task_graph_map {N : Type} (fuel : Nat) (task_graph : TaskGraph)
    (arch_graph : ArchGraph N) (procs : ProcNodes N) : Except MapError (ProcNodes N) :=
  map_roots task_graph arch_graph.gpu_nodes arch_graph.remote_nodes fuel
    task_graph.roots procs

/-- Reachability along successor edges. -/
inductive Reach (graph : TaskGraph) : Nat → Nat → Prop where
  | here (n : Nat) : Reach graph n n
  | step (n s m : Nat) : s ∈ graph.successors n → Reach graph s m → Reach graph n m

/-- The `proc_node` fields of the listed nodes after a run that returned. -/
def proc_nodes_of {N : Type} (r : Except MapError (ProcNodes N)) (nodes : List Nat) :
    Option (List (Option N)) :=
  match r with
  | .ok procs => some (nodes.map procs)
  | .error _ => none

/-- The processing nodes of scenario S4. -/
inductive S4Node where
  | gA
  | gB
deriving DecidableEq

/-- Scenario S4: `R → G1 → G2; R → G3` with `R = 0`, `G1 = 1`, `G2 = 2`,
`G3 = 3`; the successors of `R` are `G1, G3` in this order. -/
def s4_graph : TaskGraph where
  roots := [0]
  successors := fun n => if n = 0 then [1, 3] else if n = 1 then [2] else []
  is_gpu_task := fun n => n = 1 || n = 2 || n = 3
  is_input_task := fun _ => false
  is_remote_task := fun _ => false

/-- The arch graph of scenario S4, `gpu_nodes = [gA, gB]`. -/
def s4_arch : ArchGraph S4Node where
  gpu_nodes := [S4Node.gA, S4Node.gB]
  remote_nodes := []

/-- A graph with two levels of fan-out: `0 → 1, 0 → 2, 2 → 3, 2 → 4`, all
five nodes GPU tasks. -/
def fanout_graph : TaskGraph where
  roots := [0]
  successors := fun n => if n = 0 then [1, 2] else if n = 2 then [3, 4] else []
  is_gpu_task := fun _ => true
  is_input_task := fun _ => false
  is_remote_task := fun _ => false


/-- A node that is none of GPU task, input task, remote task. -/
def TaskGraph.is_plain (graph : TaskGraph) (n : Nat) : Bool :=
  !graph.is_gpu_task n && !graph.is_input_task n && !graph.is_remote_task n

/-- What a returning visit of `node` guarantees about remote and plain nodes. -/
def RemoteMapped {N : Type} (graph : TaskGraph) (remote_nodes : List N) (node : Nat)
    (procs procs1 : ProcNodes N) : Prop :=
  (∀ n, graph.is_plain n = true → procs1 n = procs n) ∧
  (∀ n, graph.is_remote_task n = true → procs n = remote_nodes[0]? →
    procs1 n = remote_nodes[0]?) ∧
  (∀ n, Reach graph node n → graph.is_remote_task n = true → procs1 n = remote_nodes[0]?)

/-- A graph with remote tasks at two depths: `0 → 1, 0 → 2, 1 → 3`, where `1`
is a GPU task, `2` and `3` are remote tasks and `0` is none of the three. -/
def remote_graph : TaskGraph where
  roots := [0]
  successors := fun n => if n = 0 then [1, 2] else if n = 1 then [3] else []
  is_gpu_task := fun n => n = 1
  is_input_task := fun _ => false
  is_remote_task := fun n => n = 2 || n = 3

/-- An arch graph with one GPU node and two remote nodes. -/
def remote_arch : ArchGraph Nat where
  gpu_nodes := [10]
  remote_nodes := [20, 21]

/-! ## Definitions: `ufo-input-task.c` -/

/-- A `UfoBuffer *`: buffers are identified by their address. -/
abbrev UfoBuffer := Nat

/-- The struct `UfoRequisition` of `ufo-buffer.h`. -/
structure UfoRequisition where
  n_dims : Nat
  dims : List Nat
deriving DecidableEq

/-- The wrapped `UfoTask` as the input task uses it: the two interface checks
`UFO_IS_CPU_TASK` and `UFO_IS_GPU_TASK`, the input count reported by
`ufo_task_get_structure`, and its virtual methods as functions on the wrapped
task's own state `W`. The array argument is the slot array `priv->inputs`. -/
structure UfoTask (W : Type) where
  is_cpu_task : Bool
  is_gpu_task : Bool
  n_inputs : Nat
  ufo_task_get_requisition : W → (Nat → Option UfoBuffer) → UfoRequisition × W
  ufo_cpu_task_process : W → (Nat → Option UfoBuffer) → UfoBuffer → UfoRequisition → Bool × W
  ufo_gpu_task_process :
    W → (Nat → Option UfoBuffer) → UfoBuffer → UfoRequisition → Option Nat → Bool × W

/-- The struct `UfoInputTaskPrivate`, with the state of the wrapped task in
place of the pointer `wrapped`, the `proc_node` of the input task's own task
node, and a counter of the calls made to the wrapped task's `process`. -/
structure UfoInputTaskPrivate (W : Type) where
  in_queues : Nat → List UfoBuffer
  out_queues : Nat → List UfoBuffer
  wrapped : W
  active : Bool
  n_inputs : Nat
  inputs : Nat → Option UfoBuffer
  proc_node : Option Nat
  process_calls : Nat

/-- The constructor `ufo_input_task_new`. -/
def ufo_input_task_new {W : Type} (task : UfoTask W) (wrapped : W) : UfoInputTaskPrivate W where
  in_queues := fun _ => []
  out_queues := fun _ => []
  wrapped := wrapped
  active := true
  n_inputs := task.n_inputs
  inputs := fun _ => none
  proc_node := none
  process_calls := 0

/-- The function `ufo_input_task_stop`. -/
def ufo_input_task_stop {W : Type} (priv : UfoInputTaskPrivate W) : UfoInputTaskPrivate W :=
  { priv with active := false }

/-- The function `ufo_input_task_release_input_buffer`: push on `in_queues[input]`. The
array has `n_inputs` entries; an index past its end has no defined result. -/
def ufo_input_task_release_input_buffer {W : Type} (priv : UfoInputTaskPrivate W)
    (input : Nat) (buffer : UfoBuffer) : Option (UfoInputTaskPrivate W) :=
  if input < priv.n_inputs then
    some { priv with
      in_queues := Function.update priv.in_queues input (priv.in_queues input ++ [buffer]) }
  else none

/-- The function `ufo_input_task_get_input_buffer`: pop from `out_queues[input]`. The result
is `none` when the index is past the end of the array or when the queue is
empty (`g_async_queue_pop` then blocks). -/
def ufo_input_task_get_input_buffer {W : Type} (priv : UfoInputTaskPrivate W)
    (input : Nat) : Option (UfoBuffer × UfoInputTaskPrivate W) :=
  if input < priv.n_inputs then
    match priv.out_queues input with
    | [] => none
    | buffer :: rest =>
      some (buffer, { priv with out_queues := Function.update priv.out_queues input rest })
  else none

/-- The first `k` rounds of the loop of `pop_all_inputs`,
`inputs[i] = g_async_queue_pop (in_queues[i])` for `i = 0, ..., k - 1`;
`none` when a pop blocks on an empty queue. -/
def pop_inputs_upto {W : Type} :
    Nat → UfoInputTaskPrivate W → Option (UfoInputTaskPrivate W)
  | 0, priv => some priv
  | i + 1, priv =>
    match pop_inputs_upto i priv with
    | none => none
    | some priv1 =>
      match priv1.in_queues i with
      | [] => none
      | buffer :: rest =>
        some { priv1 with
          inputs := Function.update priv1.inputs i (some buffer)
          in_queues := Function.update priv1.in_queues i rest }

/-- The function `pop_all_inputs`. -/
def pop_all_inputs {W : Type} (priv : UfoInputTaskPrivate W) :
    Option (UfoInputTaskPrivate W) :=
  pop_inputs_upto priv.n_inputs priv

/-- The first `k` rounds of the loop of `push_all_inputs`,
`g_async_queue_push (out_queues[i], inputs[i])` for `i = 0, ..., k - 1`.
`g_async_queue_push` refuses `NULL` data and leaves the queue as it is. -/
def push_inputs_upto {W : Type} : Nat → UfoInputTaskPrivate W → UfoInputTaskPrivate W
  | 0, priv => priv
  | i + 1, priv =>
    let priv1 := push_inputs_upto i priv
    match priv1.inputs i with
    | none => priv1
    | some buffer =>
      { priv1 with
        out_queues := Function.update priv1.out_queues i (priv1.out_queues i ++ [buffer]) }

/-- The function `push_all_inputs`. -/
def push_all_inputs {W : Type} (priv : UfoInputTaskPrivate W) : UfoInputTaskPrivate W :=
  push_inputs_upto priv.n_inputs priv

/-- The function `ufo_input_task_get_requisition`: `none` when `pop_all_inputs` blocks. -/
def ufo_input_task_get_requisition {W : Type} (task : UfoTask W)
    (priv : UfoInputTaskPrivate W) : Option (UfoRequisition × UfoInputTaskPrivate W) :=
  match pop_all_inputs priv with
  | none => none
  | some priv1 =>
    let r := task.ufo_task_get_requisition priv1.wrapped priv1.inputs
    some (r.1, { priv1 with wrapped := r.2 })

/-- The function `ufo_input_task_process`, returning the `gboolean` and the new state. -/
def ufo_input_task_process {W : Type} (task : UfoTask W) (priv : UfoInputTaskPrivate W)
    (output : UfoBuffer) (requisition : UfoRequisition) : Bool × UfoInputTaskPrivate W :=
  if !priv.active then (false, priv)
  else
    let priv1 :=
      if task.is_cpu_task then
        let r := task.ufo_cpu_task_process priv.wrapped priv.inputs output requisition
        { priv with active := r.1, wrapped := r.2, process_calls := priv.process_calls + 1 }
      else if task.is_gpu_task then
        let r := task.ufo_gpu_task_process priv.wrapped priv.inputs output requisition
          priv.proc_node
        { priv with active := r.1, wrapped := r.2, process_calls := priv.process_calls + 1 }
      else priv
    let priv2 := push_all_inputs priv1
    (priv2.active, priv2)

/-- The value the wrapped task's `process` returns on the current slots: the
CPU variant when the wrapped task is a CPU task, else the GPU variant. -/
def wrapped_result {W : Type} (task : UfoTask W) (priv : UfoInputTaskPrivate W)
    (output : UfoBuffer) (requisition : UfoRequisition) : Bool :=
  if task.is_cpu_task then
    (task.ufo_cpu_task_process priv.wrapped priv.inputs output requisition).1
  else
    (task.ufo_gpu_task_process priv.wrapped priv.inputs output requisition priv.proc_node).1

/-- One iteration of the worker on an input task: `get_requisition` followed
by `process` on the output buffer `output`. -/
def input_task_iteration {W : Type} (task : UfoTask W) (priv : UfoInputTaskPrivate W)
    (output : UfoBuffer) : Option (Bool × UfoInputTaskPrivate W) :=
  match ufo_input_task_get_requisition task priv with
  | none => none
  | some (requisition, priv1) => some (ufo_input_task_process task priv1 output requisition)

/-- Exactly `n` iterations in a row, iteration `k` writing to the output buffer `outputs k`. -/
def input_task_iterations {W : Type} (task : UfoTask W) (outputs : Nat → UfoBuffer) :
    Nat → UfoInputTaskPrivate W → Option (UfoInputTaskPrivate W)
  | 0, priv => some priv
  | n + 1, priv =>
    match input_task_iterations task outputs n priv with
    | none => none
    | some priv1 =>
      match input_task_iteration task priv1 (outputs n) with
      | none => none
      | some r => some r.2

/-- The calls `ufo_input_task_release_input_buffer (task, input, b)` for the buffers of
a list, in order. -/
def release_input_buffers {W : Type} (input : Nat) :
    List UfoBuffer → UfoInputTaskPrivate W → Option (UfoInputTaskPrivate W)
  | [], priv => some priv
  | b :: bs, priv =>
    match ufo_input_task_release_input_buffer priv input b with
    | none => none
    | some priv1 => release_input_buffers input bs priv1

/-- The results of `n` successive calls `ufo_input_task_get_input_buffer (task, input)`. -/
def get_input_buffers {W : Type} (input : Nat) :
    Nat → UfoInputTaskPrivate W → Option (List UfoBuffer × UfoInputTaskPrivate W)
  | 0, priv => some ([], priv)
  | n + 1, priv =>
    match ufo_input_task_get_input_buffer priv input with
    | none => none
    | some (b, priv1) =>
      match get_input_buffers input n priv1 with
      | none => none
      | some (bs, priv2) => some (b :: bs, priv2)

/-- A wrapped CPU task with one input that has no state, asks for the
requisition `[1]` and returns the given value from `process`. -/
def const_task (result : Bool) : UfoTask Unit where
  is_cpu_task := true
  is_gpu_task := false
  n_inputs := 1
  ufo_task_get_requisition := fun w _ => ({ n_dims := 1, dims := [1] }, w)
  ufo_cpu_task_process := fun w _ _ _ => (result, w)
  ufo_gpu_task_process := fun w _ _ _ _ => (result, w)

/-- A fresh input task around `const_task true` with buffer `7` released on input `0`. -/
def one_buffer_state : UfoInputTaskPrivate Unit :=
  { ufo_input_task_new (const_task true) () with in_queues := fun i => if i = 0 then [7] else [] }

/-- The state `one_buffer_state` after its buffer was popped into slot `0`. -/
def popped_state : UfoInputTaskPrivate Unit :=
  { ufo_input_task_new (const_task true) () with inputs := fun i => if i = 0 then some 7 else none }


/-! ## Definitions: `ufo-kiro-messenger.c` -/

/-- Modelled from the spec: the message kinds of section 3, "Kinds include at
least `Ack` and domain-specific request kinds" (the enumeration
`UfoMessageType` is declared in `ufo-messenger-iface.h`, which is not part of
the sources). -/
inductive UfoMessageType where
  | ack
  | request (code : Nat)
deriving DecidableEq

/-- Modelled from the spec: the roles of section 4.7 (`UfoMessengerRole` of
`ufo-messenger-iface.h`). -/
inductive UfoMessengerRole where
  | server
  | client
deriving DecidableEq

/-- The struct `UfoMessage`: `type`, `data_size`, `data`. -/
structure UfoMessage where
  type : UfoMessageType
  data_size : Nat
  data : List Nat
deriving DecidableEq

/-- The fields of `struct KiroMessage` that the messenger reads and writes. -/
structure KiroMessage where
  msg : UfoMessageType
  size : Nat
  payload : List Nat
deriving DecidableEq

/-- The send status that the transport stores in `msg.status`. -/
inductive KiroMessageStatus where
  | send_success
  | send_failed
deriving DecidableEq

/-- The error codes passed to `g_set_error`: `UFO_MESSENGER_CONNECTION_PROBLEM`,
and the error domain `UFO_MESSENGER_ERROR` where the source passes it in the
position of the code. -/
inductive UfoMessengerErrorCode where
  | connection_problem
  | messenger_error
deriving DecidableEq

/-- The texts of the errors and log lines of the messenger. -/
inductive MessengerText where
  | not_connected
  | failed_to_send (remote_addr : Option String)
  | failed_to_connect (remote_addr : Option String)
  | no_kiro_scheme
  | wrong_format (addr_in : String)
  | clients_cannot_send_ack
  | treated_as_interface_name (host : String)
deriving DecidableEq

/-- A `GError` in the domain `UFO_MESSENGER_ERROR`. -/
structure GError where
  code : UfoMessengerErrorCode
  text : MessengerText
deriving DecidableEq

/-- The calls made on the transport handle `priv->km`. -/
inductive KiroCall where
  | add_send_callback
  | add_receive_callback
  | remove_receive_callback (id : Nat)
  | submit_message (m : KiroMessage)
  | start (addr port : String) (role : UfoMessengerRole)
  | stop
deriving DecidableEq

/-- The struct `UfoKiroMessengerPrivate`. The transport handle `km` is
represented by the calls made on it, oldest first; `log` collects the
`g_critical` and `g_debug` lines. -/
structure UfoKiroMessengerPrivate where
  km : List KiroCall
  remote_addr : Option String
  ready : Bool
  role : UfoMessengerRole
  log : List MessengerText
deriving DecidableEq

/-- What the transport does during one blocking call: whether the send
callback is ever run, the status it leaves in the submitted message, the
handler id it hands out for a receive callback, and the message it delivers
to a registered receive callback (`none`: no message ever arrives). -/
structure KiroTransport where
  send_confirmed : Bool
  status : KiroMessageStatus
  recv_id : Nat
  incoming : Option KiroMessage

/-- The outcome of a call that busy-waits on a flag. -/
inductive Blocking (α : Type) where
  | returned (a : α)
  | spins
deriving DecidableEq

/-- The return value, the error stored through `error`, and the new state. -/
structure MessengerResult where
  response : Option UfoMessage
  error : Option GError
  priv : UfoKiroMessengerPrivate
deriving DecidableEq

/-- The function `ufo_kiro_messenger_recv_callback`: the message stored through `user_data`. -/
def ufo_kiro_messenger_recv_callback (msg : KiroMessage) : UfoMessage :=
  { type := msg.msg, data_size := msg.size, data := msg.payload }

/-- The function `ufo_kiro_messenger_send_blocking`. -/
def ufo_kiro_messenger_send_blocking (priv : UfoKiroMessengerPrivate)
    (request_msg : UfoMessage) (transport : KiroTransport) : Blocking MessengerResult :=
  if !priv.ready then
    .returned
      { response := none
        error := some { code := .messenger_error, text := .not_connected }
        priv := priv }
  else
    let log1 :=
      if request_msg.type = .ack ∧ priv.role = .client then
        priv.log ++ [MessengerText.clients_cannot_send_ack]
      else priv.log
    let km1 := priv.km ++ [KiroCall.add_send_callback]
    let km2 := if request_msg.type ≠ .ack then km1 ++ [KiroCall.add_receive_callback] else km1
    let recv_id := if request_msg.type ≠ .ack then transport.recv_id else 0
    let msg : KiroMessage :=
      { msg := request_msg.type, size := request_msg.data_size, payload := request_msg.data }
    let km3 := km2 ++ [KiroCall.submit_message msg]
    if !transport.send_confirmed then .spins
    else if transport.status ≠ .send_success then
      .returned
        { response := none
          error := some
            { code := .messenger_error, text := .failed_to_send priv.remote_addr }
          priv := { priv with
            km := km3 ++ [KiroCall.remove_receive_callback recv_id], log := log1 } }
    else if request_msg.type ≠ .ack then
      match transport.incoming with
      | none => .spins
      | some m =>
        .returned
          { response := some (ufo_kiro_messenger_recv_callback m)
            error := none
            priv := { priv with km := km3, log := log1 } }
    else
      .returned { response := none, error := none, priv := { priv with km := km3, log := log1 } }

/-- A messenger connected as a server. -/
def connected_server : UfoKiroMessengerPrivate where
  km := [KiroCall.start "127.0.0.1" "5555" UfoMessengerRole.server]
  remote_addr := some "kiro://127.0.0.1:5555"
  ready := true
  role := .server
  log := []

/-- A transport that confirms the send and delivers one `request 11` message. -/
def answering_transport : KiroTransport where
  send_confirmed := true
  status := .send_success
  recv_id := 1
  incoming := some { msg := .request 11, size := 2, payload := [1, 2] }

/-! ### Address decoding, connect, disconnect, receive -/

/-- The C library test `g_ascii_isdigit`. -/
def g_ascii_isdigit (c : Char) : Bool :=
  c.isDigit

/-- The first character of a C string; the terminating NUL for the empty string. -/
def first_char (s : List Char) : Char :=
  s.headD (Char.ofNat 0)

/-- The part of a C string before the first `:`, and what follows from the
first `:` on (empty when there is no `:`). -/
def split_at_colon : List Char → List Char × List Char
  | [] => ([], [])
  | c :: rest =>
    if c = ':' then ([], c :: rest)
    else ((c :: (split_at_colon rest).1), (split_at_colon rest).2)

/-- The GLib call `g_strsplit (string, ":", 2)`: at most two tokens, cut at the
first `:`; the empty string gives the empty vector. -/
def g_strsplit_colon_2 (string : List Char) : List (List Char) :=
  match string with
  | [] => []
  | _ :: _ =>
    match split_at_colon string with
    | (token, []) => [token]
    | (token, _ :: remainder) => [token, remainder]

/-- The outcome of `kiro_listen_address_decode`: `TRUE` with `*addr` and `*port`,
`FALSE` with the error, or no defined result (the function reads `*split[1]`
where `split[1]` is `NULL` or lies past the end of the vector). `debug` holds
the `g_debug` lines written on the way. -/
inductive DecodeResult where
  | decoded (addr port : String) (debug : List MessengerText)
  | failed (error : GError) (debug : List MessengerText)
  | undefined
deriving DecidableEq

/-- The function `kiro_listen_address_decode`. -/
def kiro_listen_address_decode (addr_in : String) : DecodeResult :=
  if !("kiro://".toList.isPrefixOf addr_in.toList) then
    .failed { code := .connection_problem, text := .no_kiro_scheme } []
  else
    let host := addr_in.toList.drop 7
    let debug :=
      if !g_ascii_isdigit (first_char host) && first_char host != '*' then
        [MessengerText.treated_as_interface_name (String.mk host)]
      else []
    match g_strsplit_colon_2 host with
    | [] => .undefined
    | [_] => .undefined
    | split0 :: split1 :: _ =>
      if !g_ascii_isdigit (first_char split1) then
        .failed { code := .connection_problem, text := .wrong_format addr_in } debug
      else .decoded (String.mk split0) (String.mk split1) debug

/-- The error stored through `error` and the new state of a `void` messenger function. -/
structure ConnectResult where
  error : Option GError
  priv : UfoKiroMessengerPrivate
deriving DecidableEq

/-- The function `ufo_kiro_messenger_connect`; `start_ret` is the value returned by
`kiro_messenger_start`. The result is `none` where the address decoding has
no defined result. After `g_free (priv->remote_addr)` the field designates no
string, which is `none` here. -/
def ufo_kiro_messenger_connect (priv : UfoKiroMessengerPrivate) (addr_in : String)
    (role : UfoMessengerRole) (start_ret : Int) : Option ConnectResult :=
  let priv1 := { priv with remote_addr := some addr_in, role := role }
  let kmr := if role = .client then UfoMessengerRole.client else UfoMessengerRole.server
  match kiro_listen_address_decode addr_in with
  | .undefined => none
  | .failed error debug =>
    some
      { error := some error
        priv := { priv1 with remote_addr := none, log := priv1.log ++ debug } }
  | .decoded addr port debug =>
    let km1 := priv1.km ++ [KiroCall.start addr port kmr]
    if 0 > start_ret then
      some
        { error := some
            { code := .connection_problem, text := .failed_to_connect priv1.remote_addr }
          priv := { priv1 with km := km1, remote_addr := none, log := priv1.log ++ debug } }
    else
      some
        { error := none
          priv := { priv1 with km := km1, ready := true, log := priv1.log ++ debug } }

/-- The function `ufo_kiro_messenger_disconnect`. -/
def ufo_kiro_messenger_disconnect (priv : UfoKiroMessengerPrivate) : UfoKiroMessengerPrivate :=
  { priv with km := priv.km ++ [KiroCall.stop], ready := false }

/-- The function `ufo_kiro_messenger_recv_blocking`. -/
def ufo_kiro_messenger_recv_blocking (priv : UfoKiroMessengerPrivate)
    (transport : KiroTransport) : Blocking MessengerResult :=
  if !priv.ready then
    .returned
      { response := none
        error := some { code := .messenger_error, text := .not_connected }
        priv := priv }
  else
    let km1 := priv.km ++ [KiroCall.add_receive_callback]
    match transport.incoming with
    | none => .spins
    | some m =>
      .returned
        { response := some (ufo_kiro_messenger_recv_callback m)
          error := none
          priv := { priv with km := km1 } }

/-- The function `ufo_kiro_messenger_init`: a fresh transport handle and `ready = FALSE`.
The other fields are not written by it; `role` is what the instance memory
holds, `remote_addr` is `NULL`. -/
def ufo_kiro_messenger_init (role : UfoMessengerRole) : UfoKiroMessengerPrivate where
  km := []
  remote_addr := none
  ready := false
  role := role
  log := []

/-- A messenger connected as a client. -/
def connected_client : UfoKiroMessengerPrivate where
  km := [KiroCall.start "127.0.0.1" "5555" UfoMessengerRole.client]
  remote_addr := some "kiro://127.0.0.1:5555"
  ready := true
  role := .client
  log := []

/-- A transport that confirms the send callback with a failed status. -/
def failing_transport : KiroTransport where
  send_confirmed := true
  status := .send_failed
  recv_id := 1
  incoming := none

/-- The error of a result that has one. -/
def error_code_of (r : Blocking MessengerResult) : Option UfoMessengerErrorCode :=
  match r with
  | .returned a => a.error.map (fun e => e.code)
  | .spins => none

/-! ## Definitions: `ufo-filter-reduce.c` -/

/-- The error code `UFO_FILTER_ERROR_METHOD_NOT_IMPLEMENTED` of the domain
`UFO_FILTER_ERROR`; the enumeration is declared in `ufo-filter.h`, its other
codes are not used by this file. -/
inductive UfoFilterErrorCode where
  | method_not_implemented
  | other (code : Nat)
deriving DecidableEq

/-- The texts written by the default methods: the debug line
"NAME->initialize not implemented" and the error message
"Virtual method METHOD of NAME is not implemented", where `method` is the
word that stands between the quotes of the format string. -/
inductive FilterText where
  | initialize_not_implemented (plugin_name : String)
  | virtual_method_not_implemented (method : String) (plugin_name : String)
deriving DecidableEq

/-- A `GError` in the domain `UFO_FILTER_ERROR`. -/
structure FilterError where
  code : UfoFilterErrorCode
  text : FilterText
deriving DecidableEq

/-- A reduce filter, as far as this file reads it: the result of
`ufo_filter_get_plugin_name`. -/
structure UfoFilterReduce where
  plugin_name : String
deriving DecidableEq

/-- What a call of a method leaves behind: the error stored through `error`
and the `g_debug` lines. -/
structure FilterCallResult where
  error : Option FilterError
  debug : List FilterText
deriving DecidableEq

/-- The virtual methods `initialize`, `collect` and `reduce` of
`UfoFilterReduceClass`, with the buffer arrays `input[]` and `output[]` as
lists. -/
structure UfoFilterReduceClass where
  initialize_method : UfoFilterReduce → List UfoBuffer → FilterCallResult
  collect_method : UfoFilterReduce → List UfoBuffer → List UfoBuffer → FilterCallResult
  reduce_method : UfoFilterReduce → List UfoBuffer → FilterCallResult

/-- The function `ufo_filter_reduce_initialize_real`. -/
def ufo_filter_reduce_initialize_real (filter : UfoFilterReduce) (_input : List UfoBuffer) :
    FilterCallResult :=
  { error := none, debug := [FilterText.initialize_not_implemented filter.plugin_name] }

/-- The function `ufo_filter_reduce_collect_real`. -/
def ufo_filter_reduce_collect_real (filter : UfoFilterReduce)
    (_input _output : List UfoBuffer) : FilterCallResult :=
  { error := some
      { code := .method_not_implemented
        text := .virtual_method_not_implemented "collect" filter.plugin_name }
    debug := [] }

/-- The function `ufo_filter_reduce_reduce_real`. -/
def ufo_filter_reduce_reduce_real (filter : UfoFilterReduce) (_output : List UfoBuffer) :
    FilterCallResult :=
  { error := some
      { code := .method_not_implemented
        text := .virtual_method_not_implemented "collect" filter.plugin_name }
    debug := [] }

/-- The function `ufo_filter_reduce_class_init`: the class of a subtype that overrides nothing. -/
def ufo_filter_reduce_class_init : UfoFilterReduceClass where
  initialize_method := ufo_filter_reduce_initialize_real
  collect_method := ufo_filter_reduce_collect_real
  reduce_method := ufo_filter_reduce_reduce_real

/-- The function `ufo_filter_reduce_initialize`: dispatch through the class. -/
def ufo_filter_reduce_initialize (klass : UfoFilterReduceClass) (filter : UfoFilterReduce)
    (input : List UfoBuffer) : FilterCallResult :=
  klass.initialize_method filter input

/-- The function `ufo_filter_reduce_collect`: dispatch through the class. -/
def ufo_filter_reduce_collect (klass : UfoFilterReduceClass) (filter : UfoFilterReduce)
    (input output : List UfoBuffer) : FilterCallResult :=
  klass.collect_method filter input output

/-- The function `ufo_filter_reduce_reduce`: dispatch through the class. -/
def ufo_filter_reduce_reduce (klass : UfoFilterReduceClass) (filter : UfoFilterReduce)
    (output : List UfoBuffer) : FilterCallResult :=
  klass.reduce_method filter output

/-! ## Definitions: `ufo-config.c` -/

/-- The three assignments at the head of `map_proc_node`, for a visit of
`node` with index `proc_index`. -/
def assign_proc_node {N : Type} (graph : TaskGraph) (gpu_nodes remote_nodes : List N)
    (procs : ProcNodes N) (node proc_index : Nat) : ProcNodes N :=
  let procs1 :=
    if graph.is_gpu_task node then
      ufo_task_node_set_proc_node procs node gpu_nodes[proc_index]?
    else procs
  let procs2 :=
    if graph.is_input_task node then
      ufo_task_node_set_proc_node procs1 node gpu_nodes[proc_index]?
    else procs1
  if graph.is_remote_task node then
    ufo_task_node_set_proc_node procs2 node remote_nodes[0]?
  else procs2

/-- The calls `(node, proc_index)` of `map_proc_node` made by the successor
loop, in order, given the calls made by each recursive call. -/
def visits_successors (visit : Nat → Nat → List (Nat × Nat)) (n_gpus proc_index : Nat) :
    List Nat → Nat → List (Nat × Nat)
  | [], _ => []
  | succ :: rest, index =>
    visit succ ((proc_index + index) % GUINT_RANGE) ++
      visits_successors visit n_gpus proc_index rest ((index + 1) % n_gpus)

/-- The calls `(node, proc_index)` of `map_proc_node` that a call makes, itself
first, in order; the first argument bounds the recursion depth. -/
def map_proc_node_visits (graph : TaskGraph) (n_gpus : Nat) :
    Nat → Nat → Nat → List (Nat × Nat)
  | 0, _, _ => []
  | fuel + 1, node, proc_index =>
    (node, proc_index) ::
      visits_successors (map_proc_node_visits graph n_gpus fuel) n_gpus proc_index
        (graph.successors node) 0

/-- The calls of `map_proc_node` made by the root loop of `ufo_task_graph_map`. -/
def map_roots_visits (graph : TaskGraph) (n_gpus fuel : Nat) : List Nat → List (Nat × Nat)
  | [] => []
  | root :: rest =>
    map_proc_node_visits graph n_gpus fuel root 0 ++ map_roots_visits graph n_gpus fuel rest

/-- The assignments of a sequence of visits, carried out in order. -/
def replay_visits {N : Type} (graph : TaskGraph) (gpu_nodes remote_nodes : List N)
    (visits : List (Nat × Nat)) (procs : ProcNodes N) : ProcNodes N :=
  visits.foldl (fun p v => assign_proc_node graph gpu_nodes remote_nodes p v.1 v.2) procs

/-- The number of successor paths from `source` to `target` with fewer nodes
than the bound; a successor listed twice counts twice. -/
def count_paths (graph : TaskGraph) : Nat → Nat → Nat → Nat
  | 0, _, _ => 0
  | fuel + 1, source, target =>
    (if source = target then 1 else 0) +
      ((graph.successors source).map (fun s => count_paths graph fuel s target)).sum

/-- The number of visits of `node` in a sequence of visits. -/
def visit_count (visits : List (Nat × Nat)) (node : Nat) : Nat :=
  visits.countP (fun v => v.1 == node)

/-- A diamond: `0 → 1, 0 → 2, 1 → 3, 2 → 3`, all four nodes GPU tasks. -/
def diamond_graph : TaskGraph where
  roots := [0]
  successors := fun n =>
    if n = 0 then [1, 2] else if n = 1 then [3] else if n = 2 then [3] else []
  is_gpu_task := fun _ => true
  is_input_task := fun _ => false
  is_remote_task := fun _ => false

/-! ## Definitions: `ufo-input-task.c`, sequences of calls -/

/-- The operations of the input task that touch its private state. -/
inductive InputTaskCall where
  | stop
  | release_input_buffer (input : Nat) (buffer : UfoBuffer)
  | get_input_buffer (input : Nat)
  | get_requisition
  | process (output : UfoBuffer) (requisition : UfoRequisition)

/-- The state after one operation; `none` when the operation does not return
(a pop on an empty queue) or has no defined result (an index past the end of
the queue arrays). -/
def input_task_call {W : Type} (task : UfoTask W) (call : InputTaskCall)
    (priv : UfoInputTaskPrivate W) : Option (UfoInputTaskPrivate W) :=
  match call with
  | .stop => some (ufo_input_task_stop priv)
  | .release_input_buffer input buffer =>
    ufo_input_task_release_input_buffer priv input buffer
  | .get_input_buffer input => (ufo_input_task_get_input_buffer priv input).map (fun r => r.2)
  | .get_requisition => (ufo_input_task_get_requisition task priv).map (fun r => r.2)
  | .process output requisition =>
    some (ufo_input_task_process task priv output requisition).2

/-- The state after a sequence of operations, carried out in order. -/
def input_task_calls {W : Type} (task : UfoTask W) :
    List InputTaskCall → UfoInputTaskPrivate W → Option (UfoInputTaskPrivate W)
  | [], priv => some priv
  | call :: rest, priv =>
    match input_task_call task call priv with
    | none => none
    | some priv1 => input_task_calls task rest priv1

/-! ## Theorems: `ufo_task_graph_split` -/

theorem split_loop_eq {G P : Type} (sub : GraphSubstrate G P) (path : P) (n_gpus : Nat)
    (hn : n_gpus < GUINT_RANGE) :
    ∀ (fuel i : Nat) (s : SplitState G P), n_gpus - i ≤ fuel →
      split_loop sub path n_gpus fuel i s =
        { graph := (fun g => sub.ufo_graph_split g path)^[n_gpus - i] s.graph
          split_calls := s.split_calls ++ List.replicate (n_gpus - i) path } := by
  intro fuel
  induction fuel with
  | zero =>
    intro i s h
    have h0 : n_gpus - i = 0 := by omega
    simp [split_loop, h0]
  | succ fuel ih =>
    intro i s h
    unfold split_loop
    by_cases hi : i < n_gpus
    · have hw : (i + 1) % GUINT_RANGE = i + 1 := Nat.mod_eq_of_lt (by omega)
      have hd : n_gpus - i = (n_gpus - (i + 1)) + 1 := by omega
      rw [if_pos hi, hw, ih (i + 1) _ (by omega), hd]
      simp [Function.iterate_succ_apply, List.replicate_succ]
    · have h0 : n_gpus - i = 0 := by omega
      simp [hi, h0]

theorem split_fold_eq {G P : Type} (sub : GraphSubstrate G P) (n_gpus : Nat)
    (hn : n_gpus < GUINT_RANGE) (paths : List P) :
    ∀ s : SplitState G P,
      paths.foldl (fun s path => split_loop sub path n_gpus n_gpus 1 s) s =
        { graph := (paths.flatMap (fun p => List.replicate (n_gpus - 1) p)).foldl
            sub.ufo_graph_split s.graph
          split_calls := s.split_calls ++
            paths.flatMap (fun p => List.replicate (n_gpus - 1) p) } := by
  induction paths with
  | nil => intro s; simp
  | cons p ps ih =>
    intro s
    have hit : ∀ (k : Nat) (g : G), (fun g => sub.ufo_graph_split g p)^[k] g =
        (List.replicate k p).foldl sub.ufo_graph_split g := by
      intro k
      induction k with
      | zero => intro g; rfl
      | succ k ihk => intro g; simp [Function.iterate_succ_apply, List.replicate_succ, ihk]
    rw [List.foldl_cons, split_loop_eq sub p n_gpus hn n_gpus 1 s (by omega), ih]
    simp [List.flatMap_cons, List.foldl_append, hit, List.append_assoc]


/-- C1 (amended): for every graph substrate, task graph and `n_gpus = k` (a `guint`),
`ufo_task_graph_split` enumerates the GPU paths once, on the graph as it is
before any duplication, and calls `ufo_graph_split` exactly `k - 1` times on
each enumerated path, in list order (no call at all when `k ≤ 1`, the
subtraction being truncated); the final graph is the result of exactly these
calls; with `k ≤ 1` the graph is unchanged; every path handed to
`ufo_graph_split` is one of the paths enumerated at the start, so duplicates
are never split again; and the original occurrences of a path together with
the duplicates made of it number `max k 1` times the original occurrences. -/
theorem ufo_task_graph_split_calls {G P : Type} [BEq P] [LawfulBEq P]
    (sub : GraphSubstrate G P) (task_graph : G) (n_gpus : Nat)
    (hn : n_gpus < GUINT_RANGE) :
    (ufo_task_graph_split sub task_graph n_gpus).split_calls =
        (sub.ufo_graph_get_paths task_graph).flatMap
          (fun p => List.replicate (n_gpus - 1) p)
    ∧ (ufo_task_graph_split sub task_graph n_gpus).graph =
        (ufo_task_graph_split sub task_graph n_gpus).split_calls.foldl
          sub.ufo_graph_split task_graph
    ∧ (n_gpus ≤ 1 →
        (ufo_task_graph_split sub task_graph n_gpus).graph = task_graph ∧
        (ufo_task_graph_split sub task_graph n_gpus).split_calls = [])
    ∧ (∀ p ∈ (ufo_task_graph_split sub task_graph n_gpus).split_calls,
        p ∈ sub.ufo_graph_get_paths task_graph)
    ∧ (∀ p : P,
        (sub.ufo_graph_get_paths task_graph).count p +
          (ufo_task_graph_split sub task_graph n_gpus).split_calls.count p =
        max n_gpus 1 * (sub.ufo_graph_get_paths task_graph).count p) := by
  have h := split_fold_eq sub n_gpus hn (sub.ufo_graph_get_paths task_graph)
    { graph := task_graph, split_calls := [] }
  have hc : (ufo_task_graph_split sub task_graph n_gpus).split_calls =
      (sub.ufo_graph_get_paths task_graph).flatMap
        (fun p => List.replicate (n_gpus - 1) p) := by
    unfold ufo_task_graph_split
    simp only [h, List.nil_append]
  have hg : (ufo_task_graph_split sub task_graph n_gpus).graph =
      ((sub.ufo_graph_get_paths task_graph).flatMap
        (fun p => List.replicate (n_gpus - 1) p)).foldl sub.ufo_graph_split task_graph := by
    unfold ufo_task_graph_split
    simp only [h]
  refine ⟨hc, ?_, ?_, ?_, ?_⟩
  · rw [hg, hc]
  · intro h1
    have h0 : n_gpus - 1 = 0 := by omega
    have hnil : ∀ l : List P, l.flatMap (fun _ => ([] : List P)) = [] := by
      intro l
      induction l with
      | nil => rfl
      | cons a l ih => rw [List.flatMap_cons, ih]; rfl
    rw [hg, hc, h0]
    simp only [List.replicate_zero, hnil, List.foldl_nil, and_self]
  · intro p hp
    rw [hc] at hp
    rcases List.mem_flatMap.mp hp with ⟨q, hq, hpq⟩
    rw [(List.mem_replicate.mp hpq).2]
    exact hq
  · intro p
    rw [hc]
    have hcount : ∀ l : List P,
        (l.flatMap (fun q => List.replicate (n_gpus - 1) q)).count p =
          (n_gpus - 1) * l.count p := by
      intro l
      induction l with
      | nil => simp
      | cons a l ih =>
        rw [List.flatMap_cons, List.count_append, ih, List.count_replicate, List.count_cons]
        by_cases hap : a = p
        · simp [hap, Nat.mul_add]
          omega
        · simp [hap]
    rw [hcount]
    rcases Nat.lt_or_ge n_gpus 1 with h0 | h1
    · have : n_gpus = 0 := by omega
      subst this
      simp
    · rw [Nat.max_eq_left h1]
      have : n_gpus = (n_gpus - 1) + 1 := by omega
      conv_rhs => rw [this]
      rw [Nat.add_mul]
      omega


theorem ufo_task_graph_split_calls_witness :
    3 < GUINT_RANGE ∧
    ((ufo_task_graph_split UfoGraph.substrate s3_graph 3).split_calls =
        (UfoGraph.substrate.ufo_graph_get_paths s3_graph).flatMap
          (fun p => List.replicate (3 - 1) p)
    ∧ (ufo_task_graph_split UfoGraph.substrate s3_graph 3).graph =
        (ufo_task_graph_split UfoGraph.substrate s3_graph 3).split_calls.foldl
          UfoGraph.substrate.ufo_graph_split s3_graph
    ∧ (3 ≤ 1 →
        (ufo_task_graph_split UfoGraph.substrate s3_graph 3).graph = s3_graph ∧
        (ufo_task_graph_split UfoGraph.substrate s3_graph 3).split_calls = [])
    ∧ (∀ p ∈ (ufo_task_graph_split UfoGraph.substrate s3_graph 3).split_calls,
        p ∈ UfoGraph.substrate.ufo_graph_get_paths s3_graph)
    ∧ (∀ p : List Nat,
        (UfoGraph.substrate.ufo_graph_get_paths s3_graph).count p +
          (ufo_task_graph_split UfoGraph.substrate s3_graph 3).split_calls.count p =
        max 3 1 * (UfoGraph.substrate.ufo_graph_get_paths s3_graph).count p))
    ∧ ((ufo_task_graph_split UfoGraph.substrate s3_graph 3).graph.paths_between 0 3).length = 3 :=
  ⟨by decide, ufo_task_graph_split_calls UfoGraph.substrate s3_graph 3 (by decide), by decide⟩

theorem ufo_task_graph_split_zero_gpus_one_path :
    ¬ (((ufo_task_graph_split UfoGraph.substrate s3_graph 0).graph.paths_between 0 3).length = 0) := by
  decide


/-! ## Theorems: `ufo_task_graph_map` -/

theorem map_successors_remote {N : Type} (graph : TaskGraph) (remote_nodes : List N)
    (visit : Nat → Nat → ProcNodes N → Except MapError (ProcNodes N))
    (hvisit : ∀ s pi p p1, visit s pi p = .ok p1 → RemoteMapped graph remote_nodes s p p1)
    (n_gpus proc_index : Nat) :
    ∀ (succs : List Nat) (index : Nat) (procs procs1 : ProcNodes N),
      map_successors visit n_gpus proc_index succs index procs = .ok procs1 →
      (∀ n, graph.is_plain n = true → procs1 n = procs n) ∧
      (∀ n, graph.is_remote_task n = true → procs n = remote_nodes[0]? →
        procs1 n = remote_nodes[0]?) ∧
      (∀ s ∈ succs, ∀ n, Reach graph s n → graph.is_remote_task n = true →
        procs1 n = remote_nodes[0]?) := by
  intro succs
  induction succs with
  | nil =>
    intro index procs procs1 h
    simp only [map_successors, Except.ok.injEq] at h
    subst h
    simp
  | cons s rest ih =>
    intro index procs procs1 h
    unfold map_successors at h
    cases hv : visit s ((proc_index + index) % GUINT_RANGE) procs with
    | error e => rw [hv] at h; cases h
    | ok p1 =>
      rw [hv] at h
      simp only at h
      by_cases hz : n_gpus = 0
      · rw [if_pos hz] at h; cases h
      · rw [if_neg hz] at h
        obtain ⟨hf1, hp1, hq1⟩ := hvisit _ _ _ _ hv
        obtain ⟨hf2, hp2, hq2⟩ := ih _ _ _ h
        refine ⟨fun n hn => (hf2 n hn).trans (hf1 n hn),
          fun n hn hr => hp2 n hn (hp1 n hn hr), ?_⟩
        intro t ht n hreach hn
        rcases List.mem_cons.mp ht with rfl | ht
        · exact hp2 n hn (hq1 n hreach hn)
        · exact hq2 t ht n hreach hn

theorem map_proc_node_remote {N : Type} (graph : TaskGraph) (gpu_nodes remote_nodes : List N) :
    ∀ (fuel node proc_index : Nat) (procs procs1 : ProcNodes N),
      map_proc_node graph gpu_nodes remote_nodes fuel node proc_index procs = .ok procs1 →
      RemoteMapped graph remote_nodes node procs procs1 := by
  intro fuel
  induction fuel with
  | zero => intro node pi procs procs1 h; simp [map_proc_node] at h
  | succ fuel ih =>
    intro node pi procs procs1 h
    unfold map_proc_node at h
    simp only at h
    obtain ⟨hf, hp, hq⟩ := map_successors_remote graph remote_nodes _ ih _ _ _ _ _ _ h
    refine ⟨?_, ?_, ?_⟩
    · intro n hn
      rw [hf n hn]
      simp only [TaskGraph.is_plain, Bool.and_eq_true, Bool.not_eq_true'] at hn
      by_cases hnode : n = node
      · subst hnode
        simp [hn.1.1, hn.1.2, hn.2]
      · split_ifs <;> simp [ufo_task_node_set_proc_node, hnode]
    · intro n hn hr
      apply hp n hn
      by_cases hnode : n = node
      · subst hnode
        simp [hn, ufo_task_node_set_proc_node]
      · split_ifs <;> simp [ufo_task_node_set_proc_node, hnode, hr]
    · intro n hreach hn
      cases hreach with
      | here =>
        apply hp _ hn
        simp [hn, ufo_task_node_set_proc_node]
      | step _ s _ hs hr => exact hq s hs n hr hn


theorem map_roots_remote {N : Type} (graph : TaskGraph) (gpu_nodes remote_nodes : List N)
    (fuel : Nat) :
    ∀ (roots : List Nat) (procs procs1 : ProcNodes N),
      map_roots graph gpu_nodes remote_nodes fuel roots procs = .ok procs1 →
      (∀ n, graph.is_plain n = true → procs1 n = procs n) ∧
      (∀ n, graph.is_remote_task n = true → procs n = remote_nodes[0]? →
        procs1 n = remote_nodes[0]?) ∧
      (∀ r ∈ roots, ∀ n, Reach graph r n → graph.is_remote_task n = true →
        procs1 n = remote_nodes[0]?) := by
  intro roots
  induction roots with
  | nil =>
    intro procs procs1 h
    simp only [map_roots, Except.ok.injEq] at h
    subst h
    simp
  | cons r rest ih =>
    intro procs procs1 h
    unfold map_roots at h
    cases hv : map_proc_node graph gpu_nodes remote_nodes fuel r 0 procs with
    | error e => rw [hv] at h; cases h
    | ok p1 =>
      rw [hv] at h
      simp only at h
      obtain ⟨hf1, hp1, hq1⟩ := map_proc_node_remote graph gpu_nodes remote_nodes _ _ _ _ _ hv
      obtain ⟨hf2, hp2, hq2⟩ := ih _ _ h
      refine ⟨fun n hn => (hf2 n hn).trans (hf1 n hn),
        fun n hn hr => hp2 n hn (hp1 n hn hr), ?_⟩
      intro t ht n hreach hn
      rcases List.mem_cons.mp ht with rfl | ht
      · exact hp2 n hn (hq1 n hreach hn)
      · exact hq2 t ht n hreach hn

/-! ### Termination of the traversal -/

theorem map_successors_ok {N : Type}
    (visit : Nat → Nat → ProcNodes N → Except MapError (ProcNodes N))
    (n_gpus proc_index : Nat) (hn : n_gpus ≠ 0) :
    ∀ (succs : List Nat) (index : Nat) (procs : ProcNodes N),
      (∀ s ∈ succs, ∀ pi p, ∃ p1, visit s pi p = .ok p1) →
      ∃ procs1, map_successors visit n_gpus proc_index succs index procs = .ok procs1 := by
  intro succs
  induction succs with
  | nil => intro index procs _; exact ⟨procs, rfl⟩
  | cons s rest ih =>
    intro index procs hv
    obtain ⟨p1, hp1⟩ := hv s (List.mem_cons_self _ _) ((proc_index + index) % GUINT_RANGE) procs
    obtain ⟨p2, hp2⟩ := ih ((index + 1) % n_gpus) p1
      (fun t ht => hv t (List.mem_cons_of_mem _ ht))
    refine ⟨p2, ?_⟩
    unfold map_successors
    rw [hp1]
    simp only [if_neg hn]
    exact hp2

theorem map_proc_node_ok {N : Type} (graph : TaskGraph) (gpu_nodes remote_nodes : List N)
    (rank : Nat → Nat) (hacyc : ∀ n, ∀ s ∈ graph.successors n, rank s < rank n)
    (hn : gpu_nodes.length ≠ 0) :
    ∀ (fuel node proc_index : Nat) (procs : ProcNodes N), rank node < fuel →
      ∃ procs1, map_proc_node graph gpu_nodes remote_nodes fuel node proc_index procs =
        .ok procs1 := by
  intro fuel
  induction fuel with
  | zero => intro node pi procs h; omega
  | succ fuel ih =>
    intro node pi procs h
    unfold map_proc_node
    apply map_successors_ok _ _ _ hn
    intro s hs pi1 p
    exact ih s pi1 p (by have := hacyc node s hs; omega)

theorem map_proc_node_leaf_ok {N : Type} (graph : TaskGraph) (gpu_nodes remote_nodes : List N)
    (fuel node proc_index : Nat) (procs : ProcNodes N)
    (hleaf : graph.successors node = []) :
    ∃ procs1, map_proc_node graph gpu_nodes remote_nodes (fuel + 1) node proc_index procs =
      .ok procs1 := by
  unfold map_proc_node
  simp only [hleaf, map_successors]
  exact ⟨_, rfl⟩

theorem map_roots_ok {N : Type} (graph : TaskGraph) (gpu_nodes remote_nodes : List N)
    (fuel : Nat) :
    ∀ (roots : List Nat) (procs : ProcNodes N),
      (∀ r ∈ roots, ∀ p, ∃ p1,
        map_proc_node graph gpu_nodes remote_nodes fuel r 0 p = .ok p1) →
      ∃ procs1, map_roots graph gpu_nodes remote_nodes fuel roots procs = .ok procs1 := by
  intro roots
  induction roots with
  | nil => intro procs _; exact ⟨procs, rfl⟩
  | cons r rest ih =>
    intro procs hv
    obtain ⟨p1, hp1⟩ := hv r (List.mem_cons_self _ _) procs
    obtain ⟨p2, hp2⟩ := ih p1 (fun t ht => hv t (List.mem_cons_of_mem _ ht))
    refine ⟨p2, ?_⟩
    unfold map_roots
    rw [hp1]
    exact hp2

/-! ### The result does not depend on the depth bound -/

theorem map_successors_mono {N : Type}
    (visit visit1 : Nat → Nat → ProcNodes N → Except MapError (ProcNodes N))
    (hvisit : ∀ s pi p p1, visit s pi p = .ok p1 → visit1 s pi p = .ok p1)
    (n_gpus proc_index : Nat) :
    ∀ (succs : List Nat) (index : Nat) (procs procs1 : ProcNodes N),
      map_successors visit n_gpus proc_index succs index procs = .ok procs1 →
      map_successors visit1 n_gpus proc_index succs index procs = .ok procs1 := by
  intro succs
  induction succs with
  | nil => intro index procs procs1 h; simpa [map_successors] using h
  | cons s rest ih =>
    intro index procs procs1 h
    unfold map_successors at h ⊢
    cases hv : visit s ((proc_index + index) % GUINT_RANGE) procs with
    | error e => rw [hv] at h; cases h
    | ok p1 =>
      rw [hv] at h
      rw [hvisit _ _ _ _ hv]
      simp only at h ⊢
      by_cases hz : n_gpus = 0
      · rw [if_pos hz] at h; cases h
      · rw [if_neg hz] at h ⊢
        exact ih _ _ _ h

theorem map_proc_node_succ_fuel {N : Type} (graph : TaskGraph)
    (gpu_nodes remote_nodes : List N) :
    ∀ (fuel node proc_index : Nat) (procs procs1 : ProcNodes N),
      map_proc_node graph gpu_nodes remote_nodes fuel node proc_index procs = .ok procs1 →
      map_proc_node graph gpu_nodes remote_nodes (fuel + 1) node proc_index procs =
        .ok procs1 := by
  intro fuel
  induction fuel with
  | zero => intro node pi procs procs1 h; simp [map_proc_node] at h
  | succ fuel ih =>
    intro node pi procs procs1 h
    unfold map_proc_node at h ⊢
    exact map_successors_mono _ _ ih _ _ _ _ _ _ h

theorem map_proc_node_mono {N : Type} (graph : TaskGraph) (gpu_nodes remote_nodes : List N)
    (fuel fuel1 node proc_index : Nat) (procs procs1 : ProcNodes N) (hle : fuel ≤ fuel1)
    (h : map_proc_node graph gpu_nodes remote_nodes fuel node proc_index procs = .ok procs1) :
    map_proc_node graph gpu_nodes remote_nodes fuel1 node proc_index procs = .ok procs1 := by
  induction hle with
  | refl => exact h
  | step _ ih => exact map_proc_node_succ_fuel _ _ _ _ _ _ _ _ ih

theorem map_roots_mono {N : Type} (graph : TaskGraph) (gpu_nodes remote_nodes : List N)
    (fuel fuel1 : Nat) (hle : fuel ≤ fuel1) :
    ∀ (roots : List Nat) (procs procs1 : ProcNodes N),
      map_roots graph gpu_nodes remote_nodes fuel roots procs = .ok procs1 →
      map_roots graph gpu_nodes remote_nodes fuel1 roots procs = .ok procs1 := by
  intro roots
  induction roots with
  | nil => intro procs procs1 h; simpa [map_roots] using h
  | cons r rest ih =>
    intro procs procs1 h
    unfold map_roots at h ⊢
    cases hv : map_proc_node graph gpu_nodes remote_nodes fuel r 0 procs with
    | error e => rw [hv] at h; cases h
    | ok p1 =>
      rw [hv] at h
      rw [map_proc_node_mono _ _ _ _ _ _ _ _ _ hle hv]
      exact ih _ _ h

/-- A bound above the rank of every listed node. -/
theorem exists_rank_bound (rank : Nat → Nat) (l : List Nat) :
    ∃ b, ∀ r ∈ l, rank r < b := by
  induction l with
  | nil => exact ⟨0, by simp⟩
  | cons a l ih =>
    obtain ⟨b, hb⟩ := ih
    refine ⟨max b (rank a + 1), ?_⟩
    intro r hr
    rcases List.mem_cons.mp hr with rfl | hr
    · omega
    · have := hb r hr
      omega

theorem ufo_task_graph_map_returns {N : Type} (task_graph : TaskGraph)
    (arch_graph : ArchGraph N) (procs : ProcNodes N) (rank : Nat → Nat)
    (hacyc : ∀ n, ∀ s ∈ task_graph.successors n, rank s < rank n)
    (hdiv : 1 ≤ arch_graph.gpu_nodes.length ∨
      ∀ r ∈ task_graph.roots, task_graph.successors r = []) :
    ∃ fuel0 procs1, ∀ fuel, fuel0 ≤ fuel →
      ufo_task_graph_map fuel task_graph arch_graph procs = .ok procs1 := by
  obtain ⟨b, hb⟩ := exists_rank_bound rank task_graph.roots
  have hok : ∃ procs1, ufo_task_graph_map (b + 1) task_graph arch_graph procs = .ok procs1 := by
    unfold ufo_task_graph_map
    apply map_roots_ok
    intro r hr p
    rcases hdiv with hg | hleaf
    · exact map_proc_node_ok _ _ _ rank hacyc (by omega) _ _ _ _ (by have := hb r hr; omega)
    · exact map_proc_node_leaf_ok _ _ _ _ _ _ _ (hleaf r hr)
  obtain ⟨procs1, h1⟩ := hok
  exact ⟨b + 1, procs1, fun fuel hle => map_roots_mono _ _ _ _ _ hle _ _ _ h1⟩


/-- C2 (amended): on the graph `R → G1 → G2; R → G3` with `gpu_nodes = [gA, gB]`,
for every sufficient depth bound and every initial assignment,
`ufo_task_graph_map` returns and leaves `G1 = gA`, `G2 = gA`, `G3 = gB`: the
first successor of a node is visited with the index of its parent, only later
siblings move on to the next GPU. -/
theorem ufo_task_graph_map_s4 (fuel : Nat) (hfuel : 3 ≤ fuel) (procs : ProcNodes S4Node) :
    proc_nodes_of (ufo_task_graph_map fuel s4_graph s4_arch procs) [1, 2, 3] =
      some [some S4Node.gA, some S4Node.gA, some S4Node.gB] := by
  have h3 : ∃ p, ufo_task_graph_map 3 s4_graph s4_arch procs = .ok p ∧
      [1, 2, 3].map p = [some S4Node.gA, some S4Node.gA, some S4Node.gB] :=
    ⟨_, rfl, rfl⟩
  obtain ⟨p, hp, hl⟩ := h3
  have := map_roots_mono s4_graph s4_arch.gpu_nodes s4_arch.remote_nodes 3 fuel hfuel
    s4_graph.roots procs p hp
  unfold ufo_task_graph_map
  rw [this]
  simp only [proc_nodes_of, hl]

theorem ufo_task_graph_map_s4_witness :
    3 ≤ 3 ∧ proc_nodes_of (ufo_task_graph_map 3 s4_graph s4_arch (fun _ => none)) [1, 2, 3] =
      some [some S4Node.gA, some S4Node.gA, some S4Node.gB] :=
  ⟨by decide, ufo_task_graph_map_s4 3 (by decide) (fun _ => none)⟩

theorem ufo_task_graph_map_s4_second_is_not_gB :
    ¬ (proc_nodes_of (ufo_task_graph_map 3 s4_graph s4_arch (fun _ => none)) [1, 2, 3] =
      some [some S4Node.gA, some S4Node.gB, some S4Node.gB]) := by
  decide

/-- C3 (the code at the failing input): on the graph `0 → 1, 0 → 2, 2 → 3, 2 → 4`
of GPU tasks with `gpu_nodes = [gA, gB]`, node `4` is visited with
`proc_index = 2` and `ufo_task_graph_map` leaves its processing node `NULL`,
whereas `gpu_nodes[2 mod 2]` is `gA`. -/
theorem map_proc_node_index_past_end :
    proc_nodes_of (ufo_task_graph_map 3 fanout_graph s4_arch (fun _ => none)) [4] =
      some [none] ∧
    s4_arch.gpu_nodes[2 % s4_arch.gpu_nodes.length]? = some S4Node.gA := by
  decide


/-- C4 (amended): on an acyclic task graph (every successor has a smaller rank) and an arch
graph on which the traversal never takes a remainder by zero (at least one
GPU node, or no root has a successor), `ufo_task_graph_map` returns, with the
same result for every sufficient depth bound, and in the result every remote
task reachable from a root has `remote_nodes[0]` (`NULL` when there is no
remote node) as its processing node, while every node that is none of GPU
task, input task and remote task has the processing node it had before. -/
theorem ufo_task_graph_map_remote_first {N : Type} (task_graph : TaskGraph)
    (arch_graph : ArchGraph N) (procs : ProcNodes N) (rank : Nat → Nat)
    (hacyc : ∀ n, ∀ s ∈ task_graph.successors n, rank s < rank n)
    (hdiv : 1 ≤ arch_graph.gpu_nodes.length ∨
      ∀ r ∈ task_graph.roots, task_graph.successors r = []) :
    ∃ fuel0 procs1,
      (∀ fuel, fuel0 ≤ fuel →
        ufo_task_graph_map fuel task_graph arch_graph procs = .ok procs1) ∧
      (∀ r ∈ task_graph.roots, ∀ n, Reach task_graph r n →
        task_graph.is_remote_task n = true → procs1 n = arch_graph.remote_nodes[0]?) ∧
      (∀ n, task_graph.is_gpu_task n = false → task_graph.is_input_task n = false →
        task_graph.is_remote_task n = false → procs1 n = procs n) := by
  obtain ⟨fuel0, procs1, h⟩ := ufo_task_graph_map_returns task_graph arch_graph procs rank
    hacyc hdiv
  have h0 := h fuel0 (Nat.le_refl _)
  unfold ufo_task_graph_map at h0
  obtain ⟨hf, _, hq⟩ := map_roots_remote _ _ _ _ _ _ _ h0
  refine ⟨fuel0, procs1, h, hq, ?_⟩
  intro n hg hi hr
  exact hf n (by simp [TaskGraph.is_plain, hg, hi, hr])

theorem ufo_task_graph_map_remote_without_gpu :
    ufo_task_graph_map 3 remote_graph
        ({ gpu_nodes := [], remote_nodes := [20, 21] } : ArchGraph Nat) (fun _ => none) =
      .error .division_by_zero ∧
    ufo_task_graph_map 4 remote_graph
        ({ gpu_nodes := [], remote_nodes := [20, 21] } : ArchGraph Nat) (fun _ => none) =
      .error .division_by_zero ∧
    remote_graph.is_remote_task 2 = true ∧ 2 ∈ remote_graph.successors 0 :=
  ⟨rfl, rfl, rfl, by decide⟩

theorem ufo_task_graph_map_remote_first_witness :
    (∀ n, ∀ s ∈ remote_graph.successors n, (fun m => 4 - m) s < (fun m => 4 - m) n) ∧
    (1 ≤ remote_arch.gpu_nodes.length ∨
      ∀ r ∈ remote_graph.roots, remote_graph.successors r = []) ∧
    ∃ fuel0 procs1,
      (∀ fuel, fuel0 ≤ fuel →
        ufo_task_graph_map fuel remote_graph remote_arch (fun _ => none) = .ok procs1) ∧
      (∀ r ∈ remote_graph.roots, ∀ n, Reach remote_graph r n →
        remote_graph.is_remote_task n = true → procs1 n = remote_arch.remote_nodes[0]?) ∧
      (∀ n, remote_graph.is_gpu_task n = false → remote_graph.is_input_task n = false →
        remote_graph.is_remote_task n = false → procs1 n = (fun _ => none) n) := by
  have hacyc : ∀ n, ∀ s ∈ remote_graph.successors n,
      (fun m => 4 - m) s < (fun m => 4 - m) n := by
    intro n s hs
    simp only [remote_graph] at hs
    split_ifs at hs with h0 h1
    · simp at hs; show 4 - s < 4 - n; omega
    · simp at hs; show 4 - s < 4 - n; omega
    · simp at hs
  exact ⟨hacyc, Or.inl (by decide),
    ufo_task_graph_map_remote_first remote_graph remote_arch (fun _ => none)
      (fun m => 4 - m) hacyc (Or.inl (by decide))⟩

/-! ## Theorems: input task -/

theorem pop_inputs_upto_eq {W : Type} (priv : UfoInputTaskPrivate W) :
    ∀ k, (∀ i, i < k → priv.in_queues i ≠ []) →
      pop_inputs_upto k priv = some { priv with
        inputs := fun i => if i < k then (priv.in_queues i).head? else priv.inputs i
        in_queues := fun i => if i < k then (priv.in_queues i).tail else priv.in_queues i } := by
  intro k
  induction k with
  | zero => intro _; simp [pop_inputs_upto]
  | succ k ih =>
    intro h
    unfold pop_inputs_upto
    rw [ih (fun i hi => h i (by omega))]
    simp only [lt_self_iff_false, if_false]
    cases hq : priv.in_queues k with
    | nil => exact absurd hq (h k (by omega))
    | cons b rest =>
      simp only [Option.some.injEq, UfoInputTaskPrivate.mk.injEq, and_true, true_and]
      constructor
      · funext i
        by_cases hik : i = k
        · subst hik; simp [hq]
        · have : i < k + 1 ↔ i < k := by omega
          simp [Function.update_noteq hik, this]
      · funext i
        by_cases hik : i = k
        · subst hik; simp [hq]
        · have : i < k + 1 ↔ i < k := by omega
          simp [Function.update_noteq hik, this]

theorem pop_inputs_upto_blocks {W : Type} (priv : UfoInputTaskPrivate W) :
    ∀ k, (∃ i, i < k ∧ priv.in_queues i = []) → pop_inputs_upto k priv = none := by
  intro k
  induction k with
  | zero => rintro ⟨i, hi, _⟩; omega
  | succ k ih =>
    rintro ⟨i, hi, hq⟩
    unfold pop_inputs_upto
    by_cases hall : ∀ j, j < k → priv.in_queues j ≠ []
    · have hik : i = k := by
        by_contra hne
        exact hall i (by omega) hq
      subst hik
      rw [pop_inputs_upto_eq priv i hall]
      simp [hq]
    · push_neg at hall
      obtain ⟨j, hj, hjq⟩ := hall
      rw [ih ⟨j, hj, hjq⟩]

theorem push_inputs_upto_eq {W : Type} (priv : UfoInputTaskPrivate W) :
    ∀ k, push_inputs_upto k priv = { priv with
      out_queues := fun i =>
        if i < k then priv.out_queues i ++ (priv.inputs i).toList else priv.out_queues i } := by
  intro k
  induction k with
  | zero => simp [push_inputs_upto]
  | succ k ih =>
    unfold push_inputs_upto
    rw [ih]
    cases hs : priv.inputs k with
    | none =>
      simp only [hs, UfoInputTaskPrivate.mk.injEq, and_true, true_and]
      funext i
      by_cases hik : i = k
      · subst hik; simp [hs]
      · have : i < k + 1 ↔ i < k := by omega
        simp [this]
    | some b =>
      simp only [hs, UfoInputTaskPrivate.mk.injEq, and_true, true_and, lt_self_iff_false,
        if_false]
      funext i
      by_cases hik : i = k
      · subst hik; simp [hs]
      · have : i < k + 1 ↔ i < k := by omega
        simp [Function.update_noteq hik, this]


theorem push_all_inputs_eq {W : Type} (priv : UfoInputTaskPrivate W) :
    push_all_inputs priv = { priv with
      out_queues := fun i =>
        if i < priv.n_inputs then priv.out_queues i ++ (priv.inputs i).toList
        else priv.out_queues i } :=
  push_inputs_upto_eq priv priv.n_inputs

/-- C5: for every input task state, the call of `process` that follows
`ufo_input_task_stop` returns `FALSE`, leaves the whole state as `stop` left
it, and in particular does not call the wrapped task (its call counter and
its state are unchanged). -/
theorem ufo_input_task_process_after_stop {W : Type} (task : UfoTask W)
    (priv : UfoInputTaskPrivate W) (output : UfoBuffer) (requisition : UfoRequisition) :
    (ufo_input_task_process task (ufo_input_task_stop priv) output requisition).1 = false ∧
    (ufo_input_task_process task (ufo_input_task_stop priv) output requisition).2 =
      ufo_input_task_stop priv ∧
    (ufo_input_task_process task (ufo_input_task_stop priv) output
      requisition).2.process_calls = priv.process_calls ∧
    (ufo_input_task_process task (ufo_input_task_stop priv) output
      requisition).2.wrapped = priv.wrapped := by
  simp [ufo_input_task_process, ufo_input_task_stop]

/-- C6: for every state of the input task and every wrapped task that is a CPU
task or a GPU task, the value returned by `process` is `active` as it was
before the call AND the value the wrapped task returns on the current slots,
output and requisition. -/
theorem ufo_input_task_process_result {W : Type} (task : UfoTask W)
    (priv : UfoInputTaskPrivate W) (output : UfoBuffer) (requisition : UfoRequisition)
    (hkind : task.is_cpu_task = true ∨ task.is_gpu_task = true) :
    (ufo_input_task_process task priv output requisition).1 =
      (priv.active && wrapped_result task priv output requisition) := by
  unfold ufo_input_task_process wrapped_result
  cases hact : priv.active with
  | false => simp
  | true =>
    simp only [Bool.not_true, Bool.false_eq_true, if_false, push_all_inputs_eq, Bool.true_and]
    by_cases hcpu : task.is_cpu_task = true
    · simp [hcpu]
    · have hgpu : task.is_gpu_task = true := hkind.resolve_left hcpu
      simp [hcpu, hgpu]

theorem ufo_input_task_process_result_witness :
    ((const_task false).is_cpu_task = true ∨ (const_task false).is_gpu_task = true) ∧
    (ufo_input_task_process (const_task false) one_buffer_state 0
        { n_dims := 1, dims := [1] }).1 =
      (one_buffer_state.active &&
        wrapped_result (const_task false) one_buffer_state 0 { n_dims := 1, dims := [1] }) :=
  ⟨Or.inl rfl, ufo_input_task_process_result (const_task false) one_buffer_state 0
    { n_dims := 1, dims := [1] } (Or.inl rfl)⟩

/-- C7 (amended): it is `get_requisition`, not `process`, that pops. When every
inbound queue `i < n_inputs` is non-empty, `ufo_input_task_get_requisition`
returns, removes exactly the head of every such queue and stores it in slot
`i`, touches no other queue or slot and no outbound queue, and hands the
freshly filled slots to the wrapped task; when some inbound queue is empty it
blocks; `process` leaves every inbound queue and every slot as it found
them. -/
theorem ufo_input_task_get_requisition_pops {W : Type} (task : UfoTask W)
    (priv : UfoInputTaskPrivate W) :
    ((∀ i, i < priv.n_inputs → priv.in_queues i ≠ []) →
      ∃ requisition priv1,
        ufo_input_task_get_requisition task priv = some (requisition, priv1) ∧
        (∀ i, i < priv.n_inputs → ∃ b, priv.in_queues i = b :: priv1.in_queues i ∧
          priv1.inputs i = some b) ∧
        (∀ i, priv.n_inputs ≤ i → priv1.in_queues i = priv.in_queues i ∧
          priv1.inputs i = priv.inputs i) ∧
        priv1.out_queues = priv.out_queues ∧
        requisition = (task.ufo_task_get_requisition priv.wrapped priv1.inputs).1) ∧
    ((∃ i, i < priv.n_inputs ∧ priv.in_queues i = []) →
      ufo_input_task_get_requisition task priv = none) ∧
    (∀ output requisition,
      (ufo_input_task_process task priv output requisition).2.in_queues = priv.in_queues ∧
      (ufo_input_task_process task priv output requisition).2.inputs = priv.inputs) := by
  refine ⟨?_, ?_, ?_⟩
  · intro h
    have hget := congrArg
      (fun o => match o with
        | none => none
        | some priv1 =>
          some ((task.ufo_task_get_requisition priv1.wrapped priv1.inputs).1,
            { priv1 with
              wrapped := (task.ufo_task_get_requisition priv1.wrapped priv1.inputs).2 }))
      (pop_inputs_upto_eq priv priv.n_inputs h)
    refine ⟨_, _, hget, ?_, ?_, ?_, ?_⟩
    · intro i hi
      cases hq : priv.in_queues i with
      | nil => exact absurd hq (h i hi)
      | cons b rest => exact ⟨b, by simp [hi, hq]⟩
    · intro i hi
      have : ¬ i < priv.n_inputs := by omega
      simp [this]
    · rfl
    · rfl
  · intro h
    unfold ufo_input_task_get_requisition pop_all_inputs
    rw [pop_inputs_upto_blocks priv priv.n_inputs h]
  · intro output requisition
    unfold ufo_input_task_process
    by_cases hact : priv.active = true
    · simp only [hact, Bool.not_true, Bool.false_eq_true, if_false, push_all_inputs_eq]
      split_ifs <;> simp
    · simp [hact]

theorem ufo_input_task_get_requisition_pops_witness :
    (∀ i, i < one_buffer_state.n_inputs → one_buffer_state.in_queues i ≠ []) ∧
    ∃ requisition priv1,
      ufo_input_task_get_requisition (const_task true) one_buffer_state =
        some (requisition, priv1) ∧
      (∀ i, i < one_buffer_state.n_inputs →
        ∃ b, one_buffer_state.in_queues i = b :: priv1.in_queues i ∧
          priv1.inputs i = some b) ∧
      (∀ i, one_buffer_state.n_inputs ≤ i →
        priv1.in_queues i = one_buffer_state.in_queues i ∧
        priv1.inputs i = one_buffer_state.inputs i) ∧
      priv1.out_queues = one_buffer_state.out_queues ∧
      requisition =
        ((const_task true).ufo_task_get_requisition one_buffer_state.wrapped priv1.inputs).1 :=
  have h : ∀ i, i < one_buffer_state.n_inputs → one_buffer_state.in_queues i ≠ [] := by
    intro i hi
    have hi0 : i = 0 := Nat.lt_one_iff.mp hi
    subst hi0
    decide
  ⟨h, (ufo_input_task_get_requisition_pops (const_task true) one_buffer_state).1 h⟩

theorem ufo_input_task_process_pops_nothing :
    ¬ ((ufo_input_task_process (const_task true) one_buffer_state 0
          { n_dims := 1, dims := [1] }).2.in_queues 0 = [] ∧
       (ufo_input_task_process (const_task true) one_buffer_state 0
          { n_dims := 1, dims := [1] }).2.inputs 0 = some 7) := by
  decide

/-- C8 (amended): a call of `process` on an active input task appends the buffer
of every slot `i < n_inputs` (when the slot is not `NULL`) to `outbound[i]`,
whatever the wrapped task returns, and touches no other outbound queue; a
call on an input task that is not active returns `FALSE` and changes
nothing, so it pushes no buffer. -/
theorem ufo_input_task_process_pushes {W : Type} (task : UfoTask W)
    (priv : UfoInputTaskPrivate W) (output : UfoBuffer) (requisition : UfoRequisition) :
    (priv.active = true →
      (∀ i, i < priv.n_inputs →
        (ufo_input_task_process task priv output requisition).2.out_queues i =
          priv.out_queues i ++ (priv.inputs i).toList) ∧
      (∀ i, priv.n_inputs ≤ i →
        (ufo_input_task_process task priv output requisition).2.out_queues i =
          priv.out_queues i)) ∧
    (priv.active = false →
      ufo_input_task_process task priv output requisition = (false, priv)) := by
  refine ⟨?_, ?_⟩
  · intro hact
    unfold ufo_input_task_process
    simp only [hact, Bool.not_true, Bool.false_eq_true, if_false, push_all_inputs_eq]
    constructor
    · intro i hi
      split_ifs <;> simp [hi]
    · intro i hi
      have : ¬ i < priv.n_inputs := by omega
      split_ifs <;> simp [this]
  · intro hact
    simp [ufo_input_task_process, hact]

theorem ufo_input_task_process_pushes_witness :
    popped_state.active = true ∧
    (∀ i, i < popped_state.n_inputs →
      (ufo_input_task_process (const_task false) popped_state 0
          { n_dims := 1, dims := [1] }).2.out_queues i =
        popped_state.out_queues i ++ (popped_state.inputs i).toList) ∧
    (∀ i, popped_state.n_inputs ≤ i →
      (ufo_input_task_process (const_task false) popped_state 0
          { n_dims := 1, dims := [1] }).2.out_queues i =
        popped_state.out_queues i) :=
  ⟨rfl, (ufo_input_task_process_pushes (const_task false) popped_state 0
    { n_dims := 1, dims := [1] }).1 rfl⟩

theorem ufo_input_task_process_after_stop_drops :
    (input_task_iteration (const_task true) (ufo_input_task_stop one_buffer_state) 0).map
        (fun r => (r.1, r.2.in_queues 0, r.2.inputs 0, r.2.out_queues 0)) =
      some (false, [], some 7, []) := by
  decide


/-- The state after `process` on an active task, field by field. -/
theorem ufo_input_task_process_active {W : Type} (task : UfoTask W)
    (priv : UfoInputTaskPrivate W) (output : UfoBuffer) (requisition : UfoRequisition)
    (hact : priv.active = true) :
    (ufo_input_task_process task priv output requisition).2.in_queues = priv.in_queues ∧
    (ufo_input_task_process task priv output requisition).2.inputs = priv.inputs ∧
    (ufo_input_task_process task priv output requisition).2.n_inputs = priv.n_inputs ∧
    (∀ i, (ufo_input_task_process task priv output requisition).2.out_queues i =
      if i < priv.n_inputs then priv.out_queues i ++ (priv.inputs i).toList
      else priv.out_queues i) ∧
    (ufo_input_task_process task priv output requisition).2.active =
      (if task.is_cpu_task then
        (task.ufo_cpu_task_process priv.wrapped priv.inputs output requisition).1
      else if task.is_gpu_task then
        (task.ufo_gpu_task_process priv.wrapped priv.inputs output requisition
          priv.proc_node).1
      else true) := by
  unfold ufo_input_task_process
  simp only [hact, Bool.not_true, Bool.false_eq_true, if_false, push_all_inputs_eq]
  split_ifs <;> simp [hact]

theorem ufo_input_task_get_requisition_some {W : Type} (task : UfoTask W)
    (priv : UfoInputTaskPrivate W) (h : ∀ i, i < priv.n_inputs → priv.in_queues i ≠ []) :
    ∃ requisition priv1,
      ufo_input_task_get_requisition task priv = some (requisition, priv1) ∧
      priv1.active = priv.active ∧ priv1.n_inputs = priv.n_inputs ∧
      priv1.out_queues = priv.out_queues ∧
      (∀ i, priv1.in_queues i =
        if i < priv.n_inputs then (priv.in_queues i).tail else priv.in_queues i) ∧
      (∀ i, priv1.inputs i =
        if i < priv.n_inputs then (priv.in_queues i).head? else priv.inputs i) ∧
      requisition = (task.ufo_task_get_requisition priv.wrapped priv1.inputs).1 := by
  have hget := congrArg
    (fun o => match o with
      | none => none
      | some priv1 =>
        some ((task.ufo_task_get_requisition priv1.wrapped priv1.inputs).1,
          { priv1 with
            wrapped := (task.ufo_task_get_requisition priv1.wrapped priv1.inputs).2 }))
    (pop_inputs_upto_eq priv priv.n_inputs h)
  exact ⟨_, _, hget, rfl, rfl, rfl, fun _ => rfl, fun _ => rfl, rfl⟩

theorem input_task_iterations_queues {W : Type} (task : UfoTask W)
    (outputs : Nat → UfoBuffer)
    (hcpu : ∀ w inputs output requisition,
      (task.ufo_cpu_task_process w inputs output requisition).1 = true)
    (hgpu : ∀ w inputs output requisition gpu,
      (task.ufo_gpu_task_process w inputs output requisition gpu).1 = true) :
    ∀ (n : Nat) (priv : UfoInputTaskPrivate W), priv.active = true →
      (∀ j, j < priv.n_inputs → n ≤ (priv.in_queues j).length) →
      ∃ priv1, input_task_iterations task outputs n priv = some priv1 ∧
        priv1.active = true ∧ priv1.n_inputs = priv.n_inputs ∧
        (∀ j, j < priv.n_inputs →
          priv1.in_queues j = (priv.in_queues j).drop n ∧
          priv1.out_queues j = priv.out_queues j ++ (priv.in_queues j).take n) := by
  intro n
  induction n with
  | zero =>
    intro priv hact _
    exact ⟨priv, rfl, hact, rfl, fun j _ => by simp⟩
  | succ n ih =>
    intro priv hact hlen
    obtain ⟨p1, hrun, hact1, hn1, hq1⟩ := ih priv hact (fun j hj => by have := hlen j hj; omega)
    have hne : ∀ i, i < p1.n_inputs → p1.in_queues i ≠ [] := by
      intro i hi
      rw [hn1] at hi
      rw [(hq1 i hi).1]
      intro hnil
      have := List.drop_eq_nil_iff.mp hnil
      have := hlen i hi
      omega
    obtain ⟨req, p2, hget, hact2, hn2, hout2, hin2, hslot2, _⟩ :=
      ufo_input_task_get_requisition_some task p1 hne
    have hact2t : p2.active = true := by rw [hact2]; exact hact1
    obtain ⟨hpin, _, hpn, hpout, hpact⟩ :=
      ufo_input_task_process_active task p2 (outputs n) req hact2t
    refine ⟨(ufo_input_task_process task p2 (outputs n) req).2, ?_, ?_, ?_, ?_⟩
    · unfold input_task_iterations
      rw [hrun]
      simp only [input_task_iteration, hget]
    · rw [hpact]
      split_ifs
      · exact hcpu _ _ _ _
      · exact hgpu _ _ _ _ _
      · rfl
    · rw [hpn, hn2, hn1]
    · intro j hj
      have hj1 : j < p1.n_inputs := by rw [hn1]; exact hj
      have hj2 : j < p2.n_inputs := by rw [hn2]; exact hj1
      rw [hpin, hpout j, hin2 j, hslot2 j, hout2]
      simp only [hj1, hj2, if_true, (hq1 j hj).1, (hq1 j hj).2, List.tail_drop,
        List.head?_drop, List.append_assoc, List.take_succ, and_self]


theorem release_input_buffers_eq {W : Type} (input : Nat) :
    ∀ (bs : List UfoBuffer) (priv : UfoInputTaskPrivate W), input < priv.n_inputs →
      release_input_buffers input bs priv = some { priv with
        in_queues := Function.update priv.in_queues input (priv.in_queues input ++ bs) } := by
  intro bs
  induction bs with
  | nil => intro priv _; simp [release_input_buffers]
  | cons b bs ih =>
    intro priv hi
    unfold release_input_buffers
    simp only [ufo_input_task_release_input_buffer, hi, if_true]
    rw [ih { priv with
      in_queues := Function.update priv.in_queues input (priv.in_queues input ++ [b]) } hi]
    simp

theorem get_input_buffers_eq {W : Type} (input : Nat) :
    ∀ (bs rest : List UfoBuffer) (priv : UfoInputTaskPrivate W), input < priv.n_inputs →
      priv.out_queues input = bs ++ rest →
      ∃ priv1, get_input_buffers input bs.length priv = some (bs, priv1) ∧
        priv1.out_queues input = rest := by
  intro bs
  induction bs with
  | nil => intro rest priv _ h; exact ⟨priv, rfl, by simpa using h⟩
  | cons b bs ih =>
    intro rest priv hi h
    obtain ⟨p1, hp1, hrest⟩ := ih rest
      { priv with out_queues := Function.update priv.out_queues input (bs ++ rest) } hi
      (by simp)
    refine ⟨p1, ?_, hrest⟩
    simp only [List.length_cons, get_input_buffers, ufo_input_task_get_input_buffer, hi,
      if_true, h, List.cons_append, hp1]

/-- C9: on an active input task whose wrapped task always returns `TRUE`, with
the inbound and outbound queue of input `i` empty and at least `n` buffers
waiting on every other input, releasing `b1..bn` on input `i`, running `n`
iterations (`get_requisition` then `process`) and calling
`get_input_buffer (i)` `n` times all succeed, the `n` calls return `b1..bn`
in this order, and every other outbound queue `j` holds what it held before
followed by the first `n` buffers of `inbound[j]`, so nothing released on
input `i` reaches it. -/
theorem ufo_input_task_fifo {W : Type} (task : UfoTask W) (priv : UfoInputTaskPrivate W)
    (input : Nat) (bs : List UfoBuffer) (outputs : Nat → UfoBuffer)
    (hinput : input < priv.n_inputs) (hact : priv.active = true)
    (hcpu : ∀ w inputs output requisition,
      (task.ufo_cpu_task_process w inputs output requisition).1 = true)
    (hgpu : ∀ w inputs output requisition gpu,
      (task.ufo_gpu_task_process w inputs output requisition gpu).1 = true)
    (hin : priv.in_queues input = []) (hout : priv.out_queues input = [])
    (hothers : ∀ j, j < priv.n_inputs → j ≠ input →
      bs.length ≤ (priv.in_queues j).length) :
    ∃ priv1 priv2 priv3,
      release_input_buffers input bs priv = some priv1 ∧
      input_task_iterations task outputs bs.length priv1 = some priv2 ∧
      get_input_buffers input bs.length priv2 = some (bs, priv3) ∧
      (∀ j, j < priv.n_inputs → j ≠ input →
        priv2.out_queues j = priv.out_queues j ++ (priv.in_queues j).take bs.length) := by
  have hrel := release_input_buffers_eq input bs priv hinput
  obtain ⟨p2, hrun, _, hn2, hq2⟩ := input_task_iterations_queues task outputs hcpu hgpu
    bs.length
    { priv with
      in_queues := Function.update priv.in_queues input (priv.in_queues input ++ bs) }
    hact
    (by
      intro j hj
      by_cases hji : j = input
      · subst hji; simp [hin]
      · simp only [Function.update_noteq hji]
        exact hothers j hj hji)
  have hout2 : p2.out_queues input = bs ++ [] := by
    rw [(hq2 input hinput).2]
    simp [hin, hout]
  obtain ⟨p3, hget, _⟩ := get_input_buffers_eq input bs [] p2 (by rw [hn2]; exact hinput) hout2
  refine ⟨_, p2, p3, hrel, hrun, hget, ?_⟩
  intro j hj hji
  rw [(hq2 j hj).2]
  simp [Function.update_noteq hji]

theorem ufo_input_task_fifo_witness :
    (0 < (ufo_input_task_new (const_task true) ()).n_inputs) ∧
    (ufo_input_task_new (const_task true) ()).active = true ∧
    ∃ priv1 priv2 priv3,
      release_input_buffers 0 [7, 8, 9] (ufo_input_task_new (const_task true) ()) =
        some priv1 ∧
      input_task_iterations (const_task true) (fun _ => 0) [7, 8, 9].length priv1 =
        some priv2 ∧
      get_input_buffers 0 [7, 8, 9].length priv2 = some ([7, 8, 9], priv3) ∧
      (∀ j, j < (ufo_input_task_new (const_task true) ()).n_inputs → j ≠ 0 →
        priv2.out_queues j = (ufo_input_task_new (const_task true) ()).out_queues j ++
          ((ufo_input_task_new (const_task true) ()).in_queues j).take [7, 8, 9].length) :=
  ⟨by decide, rfl,
    ufo_input_task_fifo (const_task true) (ufo_input_task_new (const_task true) ()) 0
      [7, 8, 9] (fun _ => 0) (by decide) rfl (fun _ _ _ _ => rfl) (fun _ _ _ _ _ => rfl)
      rfl rfl
      (fun j hj hne => absurd (Nat.lt_one_iff.mp hj) hne)⟩


/-! ## Theorems: messenger -/

/-- C10: on a connected messenger whose transport confirms the send with status
success, `send_blocking` of a message that is not `Ack` registers the send
callback and one receive callback, submits the message, and returns the
message the transport delivers with its kind, size and payload unchanged and
no error; `send_blocking` of an `Ack` message registers the send callback
only, submits the message, and returns `NULL` with no error (a client
additionally logs the critical line of the role check). -/
theorem ufo_kiro_messenger_send_blocking_response (priv : UfoKiroMessengerPrivate)
    (request_msg : UfoMessage) (transport : KiroTransport)
    (hready : priv.ready = true) (hconfirmed : transport.send_confirmed = true)
    (hstatus : transport.status = .send_success) :
    (request_msg.type ≠ .ack → ∀ m, transport.incoming = some m →
      ufo_kiro_messenger_send_blocking priv request_msg transport =
        .returned
          { response := some { type := m.msg, data_size := m.size, data := m.payload }
            error := none
            priv := { priv with
              km := priv.km ++ [KiroCall.add_send_callback, KiroCall.add_receive_callback,
                KiroCall.submit_message
                  { msg := request_msg.type, size := request_msg.data_size,
                    payload := request_msg.data }] } }) ∧
    (request_msg.type = .ack →
      ufo_kiro_messenger_send_blocking priv request_msg transport =
        .returned
          { response := none
            error := none
            priv := { priv with
              km := priv.km ++ [KiroCall.add_send_callback,
                KiroCall.submit_message
                  { msg := request_msg.type, size := request_msg.data_size,
                    payload := request_msg.data }]
              log :=
                if priv.role = .client then
                  priv.log ++ [MessengerText.clients_cannot_send_ack]
                else priv.log } }) := by
  constructor
  · intro hne m hm
    simp [ufo_kiro_messenger_send_blocking, hready, hconfirmed, hstatus, hne, hm,
      ufo_kiro_messenger_recv_callback]
  · intro hack
    simp [ufo_kiro_messenger_send_blocking, hready, hconfirmed, hstatus, hack]

theorem ufo_kiro_messenger_send_blocking_response_witness :
    connected_server.ready = true ∧ answering_transport.send_confirmed = true ∧
    answering_transport.status = .send_success ∧
    ufo_kiro_messenger_send_blocking connected_server
        { type := .request 3, data_size := 1, data := [9] } answering_transport =
      .returned
        { response := some { type := .request 11, data_size := 2, data := [1, 2] }
          error := none
          priv := { connected_server with
            km := connected_server.km ++ [KiroCall.add_send_callback,
              KiroCall.add_receive_callback,
              KiroCall.submit_message { msg := .request 3, size := 1, payload := [9] }] } } :=
  ⟨rfl, rfl, rfl,
    (ufo_kiro_messenger_send_blocking_response connected_server
      { type := .request 3, data_size := 1, data := [9] } answering_transport rfl rfl rfl).1
      (by decide) _ rfl⟩

/-! ## Theorems: messenger, address and ready flag -/

theorem split_at_colon_append (host rest : List Char) (hhost : ':' ∉ host) :
    split_at_colon (host ++ ':' :: rest) = (host, ':' :: rest) := by
  induction host with
  | nil => simp [split_at_colon]
  | cons c cs ih =>
    have hc : c ≠ ':' := fun h => hhost (by simp [h])
    have hcs : ':' ∉ cs := fun h => hhost (List.mem_cons_of_mem _ h)
    simp [split_at_colon, hc, ih hcs]

theorem g_strsplit_colon_2_append (host rest : List Char) (hhost : ':' ∉ host) :
    g_strsplit_colon_2 (host ++ ':' :: rest) = [host, rest] := by
  have h := split_at_colon_append host rest hhost
  cases host with
  | nil => simp [g_strsplit_colon_2, split_at_colon]
  | cons c cs =>
    simp only [List.cons_append] at h ⊢
    simp [g_strsplit_colon_2, h]

theorem kiro_scheme_toList :
    "kiro://".toList = ['k', 'i', 'r', 'o', ':', '/', '/'] := by
  decide

/-- C12: for every `host` without `:` and every `port` that starts with a decimal
digit, `kiro_listen_address_decode` on `"kiro://" ++ host ++ ":" ++ port`
returns `TRUE` with `*addr = host` and `*port = port`; `host ++ ":" ++ port`
is the input without its first seven characters; and the only trace of the
shape of `host` is the `g_debug` line, written exactly when the first
character after the scheme is neither a digit nor `*`. -/
theorem kiro_listen_address_decode_host_port (host port : String)
    (hhost : ':' ∉ host.toList)
    (hport : ∃ c rest, port.toList = c :: rest ∧ c.isDigit = true) :
    kiro_listen_address_decode ("kiro://" ++ host ++ ":" ++ port) =
      .decoded host port
        (if !g_ascii_isdigit (first_char (host ++ ":" ++ port).toList) &&
            first_char (host ++ ":" ++ port).toList != '*' then
          [MessengerText.treated_as_interface_name (host ++ ":" ++ port)]
        else []) ∧
    ("kiro://" ++ host ++ ":" ++ port).toList.drop 7 = (host ++ ":" ++ port).toList := by
  obtain ⟨c, rest, hp, hc⟩ := hport
  have hlist : ("kiro://" ++ host ++ ":" ++ port).toList =
      ['k', 'i', 'r', 'o', ':', '/', '/'] ++ (host.toList ++ ':' :: port.toList) := by
    simp [String.toList, String.data_append]
  have hrest : (host ++ ":" ++ port).toList = host.toList ++ ':' :: port.toList := by
    simp [String.toList, String.data_append]
  have hdrop : ("kiro://" ++ host ++ ":" ++ port).toList.drop 7 =
      host.toList ++ ':' :: port.toList := by
    rw [hlist]; rfl
  have hpre : "kiro://".toList.isPrefixOf ("kiro://" ++ host ++ ":" ++ port).toList = true := by
    rw [hlist, kiro_scheme_toList]
    simp [List.isPrefixOf]
  have hmk : String.mk (host.toList ++ ':' :: port.toList) = host ++ ":" ++ port := by
    rw [← hrest]
    rfl
  refine ⟨?_, ?_⟩
  · unfold kiro_listen_address_decode
    simp only [hpre, Bool.not_true, Bool.false_eq_true, if_false, hdrop,
      g_strsplit_colon_2_append _ _ hhost, hrest, hmk]
    have hd : g_ascii_isdigit (first_char port.toList) = true := by
      rw [hp]
      exact hc
    simp only [hd, Bool.not_true, Bool.false_eq_true, if_false]
    rfl
  · rw [hdrop, hrest]

theorem kiro_listen_address_decode_host_port_witness :
    ':' ∉ "localhost".toList ∧
    (∃ c rest, "5555".toList = c :: rest ∧ c.isDigit = true) ∧
    kiro_listen_address_decode ("kiro://" ++ "localhost" ++ ":" ++ "5555") =
      .decoded "localhost" "5555"
        (if !g_ascii_isdigit (first_char ("localhost" ++ ":" ++ "5555").toList) &&
            first_char ("localhost" ++ ":" ++ "5555").toList != '*' then
          [MessengerText.treated_as_interface_name ("localhost" ++ ":" ++ "5555")]
        else []) ∧
    ("kiro://" ++ "localhost" ++ ":" ++ "5555").toList.drop 7 =
      ("localhost" ++ ":" ++ "5555").toList :=
  ⟨by decide, ⟨'5', ['5', '5', '5'], by decide, by decide⟩,
    kiro_listen_address_decode_host_port "localhost" "5555" (by decide)
      ⟨'5', ['5', '5', '5'], by decide, by decide⟩⟩

/-- C11 (the code at the failing input): `send_blocking` of an `Ack` message on a
messenger connected as a client writes the critical line of the role check
and then goes on: the message is submitted to the transport and the call
returns `NULL` without an error. -/
theorem ufo_kiro_messenger_client_ack_is_submitted :
    ufo_kiro_messenger_send_blocking connected_client
        { type := .ack, data_size := 0, data := [] } answering_transport =
      .returned
        { response := none
          error := none
          priv := { connected_client with
            km := connected_client.km ++ [KiroCall.add_send_callback,
              KiroCall.submit_message { msg := .ack, size := 0, payload := [] }]
            log := [MessengerText.clients_cannot_send_ack] } } := by
  decide

/-- C13 (the code at the failing inputs): on `"kiro://127.0.0.1"` the vector of
`g_strsplit` has one entry and `*split[1]` reads through `NULL`; on
`"kiro://"` the vector is empty and `split[1]` lies past its end. In both
cases `ufo_kiro_messenger_connect` has no defined result, so no error is
reported. -/
theorem ufo_kiro_messenger_connect_without_separator :
    ufo_kiro_messenger_connect (ufo_kiro_messenger_init .server) "kiro://127.0.0.1"
      .client 0 = none ∧
    ufo_kiro_messenger_connect (ufo_kiro_messenger_init .server) "kiro://" .client 0 =
      none := by
  decide

/-- C14 (the code at the failing input): when the transport reports a failed
send, `send_blocking` returns `NULL` with an error whose code is the domain
`UFO_MESSENGER_ERROR`, whereas a failed `kiro_messenger_start` makes `connect`
report the code `UFO_MESSENGER_CONNECTION_PROBLEM`. -/
theorem ufo_kiro_messenger_send_failure_code :
    ufo_kiro_messenger_send_blocking connected_server
        { type := .request 3, data_size := 1, data := [9] } failing_transport =
      .returned
        { response := none
          error := some
            { code := .messenger_error
              text := .failed_to_send (some "kiro://127.0.0.1:5555") }
          priv := { connected_server with
            km := connected_server.km ++ [KiroCall.add_send_callback,
              KiroCall.add_receive_callback,
              KiroCall.submit_message { msg := .request 3, size := 1, payload := [9] },
              KiroCall.remove_receive_callback 1] } } ∧
    (ufo_kiro_messenger_connect (ufo_kiro_messenger_init .server) "kiro://127.0.0.1:5555"
      .server (-1)).map (fun r => r.error.map (fun e => e.code)) =
      some (some .connection_problem) := by
  decide

/-- C20: the flag `ready` is `FALSE` after `init`; a `connect` on a messenger that
is not ready makes it ready exactly when the address decodes and
`kiro_messenger_start` does not return a negative value; `disconnect` makes
it `FALSE`; `send_blocking` and `recv_blocking` never change it; and while it
is `FALSE` both return `NULL` with the error "not connected" and leave the
state, the list of transport calls included, as it was. -/
theorem ufo_kiro_messenger_ready_gate :
    (∀ role, (ufo_kiro_messenger_init role).ready = false) ∧
    (∀ priv addr_in role start_ret r, priv.ready = false →
      ufo_kiro_messenger_connect priv addr_in role start_ret = some r →
      (r.priv.ready = true ↔
        ((∃ addr port debug,
            kiro_listen_address_decode addr_in = .decoded addr port debug) ∧
          0 ≤ start_ret))) ∧
    (∀ priv, (ufo_kiro_messenger_disconnect priv).ready = false) ∧
    (∀ priv request_msg transport r,
      ufo_kiro_messenger_send_blocking priv request_msg transport = .returned r →
      r.priv.ready = priv.ready) ∧
    (∀ priv transport r,
      ufo_kiro_messenger_recv_blocking priv transport = .returned r →
      r.priv.ready = priv.ready) ∧
    (∀ priv request_msg transport, priv.ready = false →
      ufo_kiro_messenger_send_blocking priv request_msg transport =
        .returned
          { response := none
            error := some { code := .messenger_error, text := .not_connected }
            priv := priv }) ∧
    (∀ priv transport, priv.ready = false →
      ufo_kiro_messenger_recv_blocking priv transport =
        .returned
          { response := none
            error := some { code := .messenger_error, text := .not_connected }
            priv := priv }) := by
  refine ⟨fun _ => rfl, ?_, fun _ => rfl, ?_, ?_, ?_, ?_⟩
  · intro priv addr_in role start_ret r hready h
    unfold ufo_kiro_messenger_connect at h
    cases hd : kiro_listen_address_decode addr_in with
    | undefined => simp [hd] at h
    | failed error debug =>
      simp only [hd, Option.some.injEq] at h
      subst h
      simp [hready]
    | decoded addr port debug =>
      simp only [hd] at h
      by_cases hret : 0 > start_ret
      · simp only [hret, if_true, Option.some.injEq] at h
        subst h
        simp [hready]
        omega
      · simp only [hret, if_false, Option.some.injEq] at h
        subst h
        simp
        omega
  · intro priv request_msg transport r h
    unfold ufo_kiro_messenger_send_blocking at h
    dsimp only at h
    split at h
    · cases h; rfl
    · split at h
      · cases h
      · split at h
        · cases h; rfl
        · split at h
          · split at h
            · cases h
            · cases h; rfl
          · cases h; rfl
  · intro priv transport r h
    unfold ufo_kiro_messenger_recv_blocking at h
    dsimp only at h
    split at h
    · cases h; rfl
    · split at h
      · cases h
      · cases h; rfl
  · intro priv request_msg transport hready
    simp [ufo_kiro_messenger_send_blocking, hready]
  · intro priv transport hready
    simp [ufo_kiro_messenger_recv_blocking, hready]

theorem ufo_kiro_messenger_ready_gate_witness :
    (ufo_kiro_messenger_init .client).ready = false ∧
    ufo_kiro_messenger_send_blocking (ufo_kiro_messenger_init .client)
        { type := .request 3, data_size := 1, data := [9] } answering_transport =
      .returned
        { response := none
          error := some { code := .messenger_error, text := .not_connected }
          priv := ufo_kiro_messenger_init .client } :=
  ⟨rfl, ufo_kiro_messenger_ready_gate.2.2.2.2.2.1 (ufo_kiro_messenger_init .client)
    { type := .request 3, data_size := 1, data := [9] } answering_transport rfl⟩

/-! ## Theorems: reduce filter -/

/-- C15 (amended): for a reduce filter whose class is the one set up by
`ufo_filter_reduce_class_init`, `collect` and `reduce` each report an error
with the code method-not-implemented whose message carries the plugin name
of the filter, and the message of `collect` names the method `collect`;
`initialize` reports no error, it writes one debug line with the plugin
name. -/
theorem ufo_filter_reduce_default_methods (filter : UfoFilterReduce)
    (input output : List UfoBuffer) :
    ufo_filter_reduce_collect ufo_filter_reduce_class_init filter input output =
      { error := some
          { code := .method_not_implemented
            text := .virtual_method_not_implemented "collect" filter.plugin_name }
        debug := [] } ∧
    (∃ method,
      ufo_filter_reduce_reduce ufo_filter_reduce_class_init filter output =
        { error := some
            { code := .method_not_implemented
              text := .virtual_method_not_implemented method filter.plugin_name }
          debug := [] }) ∧
    ufo_filter_reduce_initialize ufo_filter_reduce_class_init filter input =
      { error := none
        debug := [FilterText.initialize_not_implemented filter.plugin_name] } :=
  ⟨rfl, ⟨"collect", rfl⟩, rfl⟩

theorem ufo_filter_reduce_initialize_sets_no_error :
    FilterCallResult.error
        ( ufo_filter_reduce_initialize ufo_filter_reduce_class_init
          { plugin_name := "averager" } [1]) = none ∧
    (ufo_filter_reduce_reduce ufo_filter_reduce_class_init
        { plugin_name := "averager" } [2]).error =
      some { code := .method_not_implemented
             text := .virtual_method_not_implemented "collect" "averager" } := by
  decide

/-! ## Theorems: config -/

theorem reach_successors_ne_nil (graph : TaskGraph) (r n : Nat) (h : Reach graph r n)
    (hn : graph.successors n ≠ []) : graph.successors r ≠ [] := by
  cases h with
  | here => exact hn
  | step _ s _ hs _ =>
    intro hnil
    rw [hnil] at hs
    cases hs

theorem map_proc_node_no_gpu {N : Type} (graph : TaskGraph) (remote_nodes : List N)
    (rank : Nat → Nat) (hacyc : ∀ n, ∀ s ∈ graph.successors n, rank s < rank n) :
    ∀ (fuel node proc_index : Nat) (procs : ProcNodes N), rank node < fuel →
      graph.successors node ≠ [] →
      map_proc_node graph ([] : List N) remote_nodes fuel node proc_index procs =
        .error .division_by_zero := by
  intro fuel
  induction fuel with
  | zero => intro node pi procs h; omega
  | succ fuel ih =>
    intro node pi procs h hne
    unfold map_proc_node
    cases hs : graph.successors node with
    | nil => exact absurd hs hne
    | cons s rest =>
      have hrank : rank s < fuel := by
        have := hacyc node s (by rw [hs]; exact List.mem_cons_self _ _)
        omega
      simp only [List.length_nil, map_successors]
      by_cases hleaf : graph.successors s = []
      · cases fuel with
        | zero => omega
        | succ fuel1 =>
          obtain ⟨p1, hp1⟩ := map_proc_node_leaf_ok graph ([] : List N) remote_nodes fuel1 s
            ((pi + 0) % GUINT_RANGE) _ hleaf
          rw [hp1]
          rfl
      · rw [ih s _ _ hrank hleaf]

theorem map_roots_no_gpu {N : Type} (graph : TaskGraph) (remote_nodes : List N)
    (rank : Nat → Nat) (hacyc : ∀ n, ∀ s ∈ graph.successors n, rank s < rank n)
    (fuel : Nat) :
    ∀ (roots : List Nat) (procs : ProcNodes N), (∀ r ∈ roots, rank r + 1 < fuel) →
      (∃ r ∈ roots, graph.successors r ≠ []) →
      map_roots graph ([] : List N) remote_nodes fuel roots procs =
        .error .division_by_zero := by
  intro roots
  induction roots with
  | nil => intro procs _ h; obtain ⟨r, hr, _⟩ := h; cases hr
  | cons r rest ih =>
    intro procs hfuel hex
    unfold map_roots
    by_cases hleaf : graph.successors r = []
    · have hf := hfuel r (List.mem_cons_self _ _)
      obtain ⟨fuel1, rfl⟩ : ∃ f, fuel = f + 1 := ⟨fuel - 1, by omega⟩
      obtain ⟨p1, hp1⟩ := map_proc_node_leaf_ok graph ([] : List N) remote_nodes fuel1 r 0
        procs hleaf
      rw [hp1]
      apply ih p1 (fun t ht => hfuel t (List.mem_cons_of_mem _ ht))
      obtain ⟨t, ht, hne⟩ := hex
      rcases List.mem_cons.mp ht with rfl | ht
      · exact absurd hleaf hne
      · exact ⟨t, ht, hne⟩
    · rw [map_proc_node_no_gpu graph remote_nodes rank hacyc fuel r 0 procs
        (by have := hfuel r (List.mem_cons_self _ _); omega) hleaf]

/-- C17: on an acyclic task graph and for every sufficient depth bound,
`ufo_task_graph_map` returns when the arch graph has at least one GPU node
or no node reachable from a root has a successor, and otherwise ends in the
remainder by zero of `index = (index + 1) % n_gpus`; so the run is free of the
division by zero if and only if that condition holds, and with `n_gpus = 0`
and a successor of some node reachable from a root the error is reached. -/
theorem ufo_task_graph_map_division_by_zero {N : Type} (task_graph : TaskGraph)
    (arch_graph : ArchGraph N) (procs : ProcNodes N) (rank : Nat → Nat)
    (hacyc : ∀ n, ∀ s ∈ task_graph.successors n, rank s < rank n) :
    ∃ fuel0, ∀ fuel, fuel0 ≤ fuel →
      (ufo_task_graph_map fuel task_graph arch_graph procs ≠ .error .division_by_zero ↔
        (1 ≤ arch_graph.gpu_nodes.length ∨
          ∀ r ∈ task_graph.roots, ∀ n, Reach task_graph r n →
            task_graph.successors n = [])) ∧
      ((1 ≤ arch_graph.gpu_nodes.length ∨
          ∀ r ∈ task_graph.roots, ∀ n, Reach task_graph r n →
            task_graph.successors n = []) →
        ∃ procs1, ufo_task_graph_map fuel task_graph arch_graph procs = .ok procs1) ∧
      (arch_graph.gpu_nodes.length = 0 →
        (∃ r ∈ task_graph.roots, ∃ n, Reach task_graph r n ∧
          task_graph.successors n ≠ []) →
        ufo_task_graph_map fuel task_graph arch_graph procs =
          .error .division_by_zero) := by
  by_cases hc : 1 ≤ arch_graph.gpu_nodes.length ∨
      ∀ r ∈ task_graph.roots, ∀ n, Reach task_graph r n → task_graph.successors n = []
  · have hdiv : 1 ≤ arch_graph.gpu_nodes.length ∨
        ∀ r ∈ task_graph.roots, task_graph.successors r = [] := by
      rcases hc with h | h
      · exact Or.inl h
      · exact Or.inr (fun r hr => h r hr r (Reach.here r))
    obtain ⟨fuel0, procs1, hok⟩ :=
      ufo_task_graph_map_returns task_graph arch_graph procs rank hacyc hdiv
    refine ⟨fuel0, fun fuel hle => ⟨?_, ?_, ?_⟩⟩
    · rw [hok fuel hle]
      exact ⟨fun _ => hc, fun _ h => by cases h⟩
    · exact fun _ => ⟨procs1, hok fuel hle⟩
    · intro h0 hex
      exfalso
      obtain ⟨r, hr, n, hreach, hne⟩ := hex
      rcases hc with h | h
      · omega
      · exact hne (h r hr n hreach)
  · have hc0 := hc
    simp only [not_or, not_forall] at hc
    obtain ⟨hn, r, hr, n, hreach, hne⟩ := hc
    have hlen : arch_graph.gpu_nodes.length = 0 := by omega
    have hnil : arch_graph.gpu_nodes = [] := List.length_eq_zero.mp hlen
    obtain ⟨b, hb⟩ := exists_rank_bound rank task_graph.roots
    have herr : ∀ fuel, b + 2 ≤ fuel →
        ufo_task_graph_map fuel task_graph arch_graph procs = .error .division_by_zero := by
      intro fuel hle
      unfold ufo_task_graph_map
      rw [hnil]
      apply map_roots_no_gpu task_graph arch_graph.remote_nodes rank hacyc fuel
      · intro t ht
        have := hb t ht
        omega
      · exact ⟨r, hr, reach_successors_ne_nil task_graph r n hreach hne⟩
    refine ⟨b + 2, fun fuel hle => ⟨?_, ?_, ?_⟩⟩
    · rw [herr fuel hle]
      exact ⟨fun h => absurd rfl h, fun h => absurd h hc0⟩
    · exact fun h => absurd h hc0
    · exact fun _ _ => herr fuel hle

theorem ufo_task_graph_map_division_by_zero_witness :
    (∀ n, ∀ s ∈ remote_graph.successors n, (fun m => 4 - m) s < (fun m => 4 - m) n) ∧
    ∃ fuel0, ∀ fuel, fuel0 ≤ fuel →
      (ufo_task_graph_map fuel remote_graph ({ gpu_nodes := [], remote_nodes := [20] } :
          ArchGraph Nat) (fun _ => none) ≠ .error .division_by_zero ↔
        (1 ≤ ({ gpu_nodes := [], remote_nodes := [20] } : ArchGraph Nat).gpu_nodes.length ∨
          ∀ r ∈ remote_graph.roots, ∀ n, Reach remote_graph r n →
            remote_graph.successors n = [])) ∧
      ((1 ≤ ({ gpu_nodes := [], remote_nodes := [20] } : ArchGraph Nat).gpu_nodes.length ∨
          ∀ r ∈ remote_graph.roots, ∀ n, Reach remote_graph r n →
            remote_graph.successors n = []) →
        ∃ procs1, ufo_task_graph_map fuel remote_graph
          ({ gpu_nodes := [], remote_nodes := [20] } : ArchGraph Nat) (fun _ => none) =
            .ok procs1) ∧
      (({ gpu_nodes := [], remote_nodes := [20] } : ArchGraph Nat).gpu_nodes.length = 0 →
        (∃ r ∈ remote_graph.roots, ∃ n, Reach remote_graph r n ∧
          remote_graph.successors n ≠ []) →
        ufo_task_graph_map fuel remote_graph
          ({ gpu_nodes := [], remote_nodes := [20] } : ArchGraph Nat) (fun _ => none) =
            .error .division_by_zero) := by
  have hacyc : ∀ n, ∀ s ∈ remote_graph.successors n,
      (fun m => 4 - m) s < (fun m => 4 - m) n := by
    intro n s hs
    simp only [remote_graph] at hs
    split_ifs at hs with h0 h1
    · simp at hs; show 4 - s < 4 - n; omega
    · simp at hs; show 4 - s < 4 - n; omega
    · simp at hs
  exact ⟨hacyc, ufo_task_graph_map_division_by_zero remote_graph
    { gpu_nodes := [], remote_nodes := [20] } (fun _ => none) (fun m => 4 - m) hacyc⟩

/-! ## Theorems: `ufo_task_graph_map`, visits -/

theorem replay_visits_append {N : Type} (graph : TaskGraph) (gpu_nodes remote_nodes : List N)
    (v1 v2 : List (Nat × Nat)) (procs : ProcNodes N) :
    replay_visits graph gpu_nodes remote_nodes (v1 ++ v2) procs =
      replay_visits graph gpu_nodes remote_nodes v2
        (replay_visits graph gpu_nodes remote_nodes v1 procs) := by
  simp [replay_visits, List.foldl_append]

theorem map_successors_replay {N : Type} (graph : TaskGraph) (gpu_nodes remote_nodes : List N)
    (visit : Nat → Nat → ProcNodes N → Except MapError (ProcNodes N))
    (tvisit : Nat → Nat → List (Nat × Nat))
    (hvisit : ∀ s pi p p1, visit s pi p = .ok p1 →
      p1 = replay_visits graph gpu_nodes remote_nodes (tvisit s pi) p)
    (n_gpus proc_index : Nat) :
    ∀ (succs : List Nat) (index : Nat) (procs procs1 : ProcNodes N),
      map_successors visit n_gpus proc_index succs index procs = .ok procs1 →
      procs1 = replay_visits graph gpu_nodes remote_nodes
        (visits_successors tvisit n_gpus proc_index succs index) procs := by
  intro succs
  induction succs with
  | nil =>
    intro index procs procs1 h
    simp only [map_successors, Except.ok.injEq] at h
    subst h
    rfl
  | cons s rest ih =>
    intro index procs procs1 h
    unfold map_successors at h
    cases hv : visit s ((proc_index + index) % GUINT_RANGE) procs with
    | error e => rw [hv] at h; cases h
    | ok p1 =>
      rw [hv] at h
      simp only at h
      by_cases hz : n_gpus = 0
      · rw [if_pos hz] at h; cases h
      · rw [if_neg hz] at h
        rw [visits_successors, replay_visits_append, ← hvisit _ _ _ _ hv]
        exact ih _ _ _ h

theorem map_proc_node_replay {N : Type} (graph : TaskGraph) (gpu_nodes remote_nodes : List N) :
    ∀ (fuel node proc_index : Nat) (procs procs1 : ProcNodes N),
      map_proc_node graph gpu_nodes remote_nodes fuel node proc_index procs = .ok procs1 →
      procs1 = replay_visits graph gpu_nodes remote_nodes
        (map_proc_node_visits graph gpu_nodes.length fuel node proc_index) procs := by
  intro fuel
  induction fuel with
  | zero => intro node pi procs procs1 h; simp [map_proc_node] at h
  | succ fuel ih =>
    intro node pi procs procs1 h
    unfold map_proc_node at h
    simp only at h
    have h1 := map_successors_replay graph gpu_nodes remote_nodes _
      (map_proc_node_visits graph gpu_nodes.length fuel) ih _ _ _ _ _ _ h
    rw [h1, map_proc_node_visits]
    rfl

theorem map_roots_replay {N : Type} (graph : TaskGraph) (gpu_nodes remote_nodes : List N)
    (fuel : Nat) :
    ∀ (roots : List Nat) (procs procs1 : ProcNodes N),
      map_roots graph gpu_nodes remote_nodes fuel roots procs = .ok procs1 →
      procs1 = replay_visits graph gpu_nodes remote_nodes
        (map_roots_visits graph gpu_nodes.length fuel roots) procs := by
  intro roots
  induction roots with
  | nil =>
    intro procs procs1 h
    simp only [map_roots, Except.ok.injEq] at h
    subst h
    rfl
  | cons r rest ih =>
    intro procs procs1 h
    unfold map_roots at h
    cases hv : map_proc_node graph gpu_nodes remote_nodes fuel r 0 procs with
    | error e => rw [hv] at h; cases h
    | ok p1 =>
      rw [hv] at h
      simp only at h
      rw [map_roots_visits, replay_visits_append,
        ← map_proc_node_replay graph gpu_nodes remote_nodes _ _ _ _ _ hv]
      exact ih _ _ h

theorem visit_count_append (v1 v2 : List (Nat × Nat)) (n : Nat) :
    visit_count (v1 ++ v2) n = visit_count v1 n + visit_count v2 n := by
  simp [visit_count, List.countP_append]

theorem visits_successors_count (tvisit : Nat → Nat → List (Nat × Nat))
    (count : Nat → Nat) (n : Nat)
    (hcount : ∀ s pi, visit_count (tvisit s pi) n = count s) (n_gpus proc_index : Nat) :
    ∀ (succs : List Nat) (index : Nat),
      visit_count (visits_successors tvisit n_gpus proc_index succs index) n =
        (succs.map count).sum := by
  intro succs
  induction succs with
  | nil => intro index; rfl
  | cons s rest ih =>
    intro index
    rw [visits_successors, visit_count_append, hcount, ih]
    simp

theorem map_proc_node_visits_count (graph : TaskGraph) (n_gpus n : Nat) :
    ∀ (fuel node proc_index : Nat),
      visit_count (map_proc_node_visits graph n_gpus fuel node proc_index) n =
        count_paths graph fuel node n := by
  intro fuel
  induction fuel with
  | zero => intro node pi; rfl
  | succ fuel ih =>
    intro node pi
    rw [map_proc_node_visits, count_paths]
    have h := visits_successors_count (map_proc_node_visits graph n_gpus fuel)
      (fun s => count_paths graph fuel s n) n (fun s pi1 => ih s pi1) n_gpus pi
      (graph.successors node) 0
    have hcons : ∀ (v : Nat × Nat) (l : List (Nat × Nat)),
        visit_count (v :: l) n = (if v.1 = n then 1 else 0) + visit_count l n := by
      intro v l
      by_cases hv : v.1 = n
      · simp [visit_count, List.countP_cons, hv]; omega
      · simp [visit_count, List.countP_cons, hv]
    rw [hcons, h]

theorem map_roots_visits_count (graph : TaskGraph) (n_gpus fuel n : Nat) :
    ∀ roots : List Nat,
      visit_count (map_roots_visits graph n_gpus fuel roots) n =
        (roots.map (fun r => count_paths graph fuel r n)).sum := by
  intro roots
  induction roots with
  | nil => rfl
  | cons r rest ih =>
    rw [map_roots_visits, visit_count_append, map_proc_node_visits_count, ih]
    simp

theorem assign_proc_node_other {N : Type} (graph : TaskGraph) (gpu_nodes remote_nodes : List N)
    (procs : ProcNodes N) (node proc_index n : Nat) (hne : node ≠ n) :
    assign_proc_node graph gpu_nodes remote_nodes procs node proc_index n = procs n := by
  have hne1 : ¬ n = node := fun h => hne h.symm
  unfold assign_proc_node
  split_ifs <;> simp [ufo_task_node_set_proc_node, hne1]

theorem assign_proc_node_same {N : Type} (graph : TaskGraph) (gpu_nodes remote_nodes : List N)
    (procs procs1 : ProcNodes N) (node proc_index : Nat) (h : procs node = procs1 node) :
    assign_proc_node graph gpu_nodes remote_nodes procs node proc_index node =
      assign_proc_node graph gpu_nodes remote_nodes procs1 node proc_index node := by
  unfold assign_proc_node
  split_ifs <;> simp [ufo_task_node_set_proc_node, h]

theorem replay_visits_not_visited {N : Type} (graph : TaskGraph)
    (gpu_nodes remote_nodes : List N) (n : Nat) :
    ∀ (visits : List (Nat × Nat)) (procs : ProcNodes N), (∀ v ∈ visits, v.1 ≠ n) →
      replay_visits graph gpu_nodes remote_nodes visits procs n = procs n := by
  intro visits
  induction visits with
  | nil => intro procs _; rfl
  | cons v rest ih =>
    intro procs h
    have hrest := ih (assign_proc_node graph gpu_nodes remote_nodes procs v.1 v.2)
      (fun w hw => h w (List.mem_cons_of_mem _ hw))
    simp only [replay_visits, List.foldl_cons] at hrest ⊢
    rw [hrest]
    exact assign_proc_node_other graph gpu_nodes remote_nodes procs v.1 v.2 n
      (h v (List.mem_cons_self _ _))

theorem replay_visits_plain {N : Type} (graph : TaskGraph)
    (gpu_nodes remote_nodes : List N) (n : Nat) (hplain : graph.is_plain n = true) :
    ∀ (visits : List (Nat × Nat)) (procs : ProcNodes N),
      replay_visits graph gpu_nodes remote_nodes visits procs n = procs n := by
  intro visits
  induction visits with
  | nil => intro procs; rfl
  | cons v rest ih =>
    intro procs
    have hrest := ih (assign_proc_node graph gpu_nodes remote_nodes procs v.1 v.2)
    simp only [replay_visits, List.foldl_cons] at hrest ⊢
    rw [hrest]
    simp only [TaskGraph.is_plain, Bool.and_eq_true, Bool.not_eq_true'] at hplain
    by_cases hv : v.1 = n
    · subst hv
      simp [assign_proc_node, hplain.1.1, hplain.1.2, hplain.2]
    · exact assign_proc_node_other graph gpu_nodes remote_nodes procs v.1 v.2 n hv

theorem replay_visits_last {N : Type} (graph : TaskGraph) (gpu_nodes remote_nodes : List N)
    (procs : ProcNodes N) (pre post : List (Nat × Nat)) (n proc_index : Nat)
    (hpost : ∀ v ∈ post, v.1 ≠ n) :
    replay_visits graph gpu_nodes remote_nodes (pre ++ (n, proc_index) :: post) procs n =
      assign_proc_node graph gpu_nodes remote_nodes procs n proc_index n := by
  rw [replay_visits_append]
  have hcons : replay_visits graph gpu_nodes remote_nodes ((n, proc_index) :: post)
      (replay_visits graph gpu_nodes remote_nodes pre procs) =
      replay_visits graph gpu_nodes remote_nodes post
        (assign_proc_node graph gpu_nodes remote_nodes
          (replay_visits graph gpu_nodes remote_nodes pre procs) n proc_index) := rfl
  rw [hcons, replay_visits_not_visited graph gpu_nodes remote_nodes n post _ hpost]
  by_cases hplain : graph.is_plain n = true
  · exact assign_proc_node_same graph gpu_nodes remote_nodes _ _ n proc_index
      (replay_visits_plain graph gpu_nodes remote_nodes n hplain pre procs)
  · simp only [TaskGraph.is_plain, Bool.and_eq_true, Bool.not_eq_true', not_and,
      Bool.not_eq_false] at hplain
    unfold assign_proc_node
    by_cases hr : graph.is_remote_task n = true
    · simp [hr, ufo_task_node_set_proc_node]
    · by_cases hi : graph.is_input_task n = true
      · simp [hr, hi, ufo_task_node_set_proc_node]
      · by_cases hg : graph.is_gpu_task n = true
        · simp [hr, hi, hg, ufo_task_node_set_proc_node]
        · exfalso
          simp only [Bool.not_eq_true] at hr hi hg
          have := hplain ⟨hg, hi⟩
          rw [hr] at this
          cases this

/-- C18: on an acyclic task graph and an arch graph with at least one GPU node,
`ufo_task_graph_map` returns, with one result for every sufficient depth
bound. The graph is only read; the result is the initial `proc_node` fields
with the assignments of all visits carried out in order. A node is visited
once for every successor path that leads to it from a root (there is no
visited set), its final `proc_node` is the one assigned at its last visit,
and a node that is never visited keeps its `proc_node`. -/
theorem ufo_task_graph_map_terminates {N : Type} (task_graph : TaskGraph)
    (arch_graph : ArchGraph N) (procs : ProcNodes N) (rank : Nat → Nat)
    (hacyc : ∀ n, ∀ s ∈ task_graph.successors n, rank s < rank n)
    (hgpu : 1 ≤ arch_graph.gpu_nodes.length) :
    ∃ fuel0 procs1, ∀ fuel, fuel0 ≤ fuel →
      ufo_task_graph_map fuel task_graph arch_graph procs = .ok procs1 ∧
      procs1 = replay_visits task_graph arch_graph.gpu_nodes arch_graph.remote_nodes
        (map_roots_visits task_graph arch_graph.gpu_nodes.length fuel task_graph.roots)
        procs ∧
      (∀ n, visit_count
          (map_roots_visits task_graph arch_graph.gpu_nodes.length fuel task_graph.roots) n =
        (task_graph.roots.map (fun r => count_paths task_graph fuel r n)).sum) ∧
      (∀ n proc_index pre post,
        map_roots_visits task_graph arch_graph.gpu_nodes.length fuel task_graph.roots =
          pre ++ (n, proc_index) :: post →
        (∀ v ∈ post, v.1 ≠ n) →
        procs1 n = assign_proc_node task_graph arch_graph.gpu_nodes
          arch_graph.remote_nodes procs n proc_index n) ∧
      (∀ n, visit_count
          (map_roots_visits task_graph arch_graph.gpu_nodes.length fuel task_graph.roots) n =
          0 →
        procs1 n = procs n) := by
  obtain ⟨fuel0, procs1, hok⟩ :=
    ufo_task_graph_map_returns task_graph arch_graph procs rank hacyc (Or.inl hgpu)
  refine ⟨fuel0, procs1, fun fuel hle => ?_⟩
  have hrun := hok fuel hle
  have hrep : procs1 = replay_visits task_graph arch_graph.gpu_nodes
      arch_graph.remote_nodes
      (map_roots_visits task_graph arch_graph.gpu_nodes.length fuel task_graph.roots)
      procs := by
    unfold ufo_task_graph_map at hrun
    exact map_roots_replay task_graph arch_graph.gpu_nodes arch_graph.remote_nodes fuel
      task_graph.roots procs procs1 hrun
  refine ⟨hrun, hrep, ?_, ?_, ?_⟩
  · intro n
    exact map_roots_visits_count task_graph arch_graph.gpu_nodes.length fuel n
      task_graph.roots
  · intro n pi pre post hsplit hpost
    rw [hrep, hsplit]
    exact replay_visits_last task_graph arch_graph.gpu_nodes arch_graph.remote_nodes procs
      pre post n pi hpost
  · intro n hzero
    rw [hrep]
    apply replay_visits_not_visited
    intro v hv hvn
    have hpos : 0 < visit_count
        (map_roots_visits task_graph arch_graph.gpu_nodes.length fuel task_graph.roots)
        n := by
      unfold visit_count
      exact List.countP_pos_iff.mpr ⟨v, hv, by simp [hvn]⟩
    omega

theorem ufo_task_graph_map_terminates_witness :
    (∀ n, ∀ s ∈ diamond_graph.successors n, (fun m => 4 - m) s < (fun m => 4 - m) n) ∧
    1 ≤ s4_arch.gpu_nodes.length ∧
    (∃ fuel0 procs1, ∀ fuel, fuel0 ≤ fuel →
      ufo_task_graph_map fuel diamond_graph s4_arch (fun _ => none) = .ok procs1 ∧
      procs1 = replay_visits diamond_graph s4_arch.gpu_nodes s4_arch.remote_nodes
        (map_roots_visits diamond_graph s4_arch.gpu_nodes.length fuel diamond_graph.roots)
        (fun _ => none) ∧
      (∀ n, visit_count
          (map_roots_visits diamond_graph s4_arch.gpu_nodes.length fuel
            diamond_graph.roots) n =
        (diamond_graph.roots.map (fun r => count_paths diamond_graph fuel r n)).sum) ∧
      (∀ n proc_index pre post,
        map_roots_visits diamond_graph s4_arch.gpu_nodes.length fuel diamond_graph.roots =
          pre ++ (n, proc_index) :: post →
        (∀ v ∈ post, v.1 ≠ n) →
        procs1 n = assign_proc_node diamond_graph s4_arch.gpu_nodes
          s4_arch.remote_nodes (fun _ => none) n proc_index n) ∧
      (∀ n, visit_count
          (map_roots_visits diamond_graph s4_arch.gpu_nodes.length fuel
            diamond_graph.roots) n = 0 →
        procs1 n = (fun _ => none) n)) ∧
    map_roots_visits diamond_graph 2 3 [0] = [(0, 0), (1, 0), (3, 0), (2, 1), (3, 1)] ∧
    proc_nodes_of (ufo_task_graph_map 3 diamond_graph s4_arch (fun _ => none)) [3] =
      some [some S4Node.gB] := by
  have hacyc : ∀ n, ∀ s ∈ diamond_graph.successors n,
      (fun m => 4 - m) s < (fun m => 4 - m) n := by
    intro n s hs
    simp only [diamond_graph] at hs
    split_ifs at hs with h0 h1 h2
    · simp at hs; show 4 - s < 4 - n; omega
    · simp at hs; show 4 - s < 4 - n; omega
    · simp at hs; show 4 - s < 4 - n; omega
    · simp at hs
  exact ⟨hacyc, by decide,
    ufo_task_graph_map_terminates diamond_graph s4_arch (fun _ => none) (fun m => 4 - m)
      hacyc (by decide), by decide, by decide⟩

/-! ## Theorems: input task, the flag `active` -/

theorem pop_inputs_upto_active {W : Type} :
    ∀ (k : Nat) (priv priv1 : UfoInputTaskPrivate W),
      pop_inputs_upto k priv = some priv1 →
      priv1.active = priv.active ∧ priv1.process_calls = priv.process_calls := by
  intro k
  induction k with
  | zero =>
    intro priv priv1 h
    simp only [pop_inputs_upto, Option.some.injEq] at h
    subst h
    exact ⟨rfl, rfl⟩
  | succ k ih =>
    intro priv priv1 h
    unfold pop_inputs_upto at h
    cases hp : pop_inputs_upto k priv with
    | none => simp [hp] at h
    | some p =>
      simp only [hp] at h
      cases hq : p.in_queues k with
      | nil => simp [hq] at h
      | cons b rest =>
        simp only [hq, Option.some.injEq] at h
        subst h
        exact ih priv p hp

theorem ufo_input_task_process_inactive {W : Type} (task : UfoTask W)
    (priv : UfoInputTaskPrivate W) (output : UfoBuffer) (requisition : UfoRequisition)
    (hact : priv.active = false) :
    ufo_input_task_process task priv output requisition = (false, priv) := by
  simp [ufo_input_task_process, hact]

theorem ufo_input_task_process_returns_active {W : Type} (task : UfoTask W)
    (priv : UfoInputTaskPrivate W) (output : UfoBuffer) (requisition : UfoRequisition) :
    (ufo_input_task_process task priv output requisition).2.active =
      (ufo_input_task_process task priv output requisition).1 := by
  unfold ufo_input_task_process
  cases hact : priv.active with
  | false => simp [hact]
  | true => simp

theorem input_task_call_inactive {W : Type} (task : UfoTask W) (call : InputTaskCall)
    (priv priv1 : UfoInputTaskPrivate W) (hact : priv.active = false)
    (h : input_task_call task call priv = some priv1) :
    priv1.active = false ∧ priv1.process_calls = priv.process_calls := by
  cases call with
  | stop =>
    simp only [input_task_call, Option.some.injEq] at h
    subst h
    exact ⟨rfl, rfl⟩
  | release_input_buffer input buffer =>
    simp only [input_task_call, ufo_input_task_release_input_buffer] at h
    split_ifs at h
    simp only [Option.some.injEq] at h
    subst h
    exact ⟨hact, rfl⟩
  | get_input_buffer input =>
    simp only [input_task_call, ufo_input_task_get_input_buffer] at h
    split_ifs at h
    · cases hq : priv.out_queues input with
      | nil => simp [hq] at h
      | cons b rest =>
        simp only [hq, Option.map_some', Option.some.injEq] at h
        subst h
        exact ⟨hact, rfl⟩
    · simp at h
  | get_requisition =>
    simp only [input_task_call, ufo_input_task_get_requisition, pop_all_inputs] at h
    cases hp : pop_inputs_upto priv.n_inputs priv with
    | none => simp [hp] at h
    | some p =>
      simp only [hp, Option.map_some', Option.some.injEq] at h
      subst h
      obtain ⟨ha, hc⟩ := pop_inputs_upto_active _ _ _ hp
      exact ⟨ha.trans hact, hc⟩
  | process output requisition =>
    simp only [input_task_call, Option.some.injEq] at h
    subst h
    rw [ufo_input_task_process_inactive task priv output requisition hact]
    exact ⟨hact, rfl⟩

theorem input_task_calls_inactive {W : Type} (task : UfoTask W) :
    ∀ (calls : List InputTaskCall) (priv priv1 : UfoInputTaskPrivate W),
      priv.active = false → input_task_calls task calls priv = some priv1 →
      priv1.active = false ∧ priv1.process_calls = priv.process_calls := by
  intro calls
  induction calls with
  | nil =>
    intro priv priv1 hact h
    simp only [input_task_calls, Option.some.injEq] at h
    subst h
    exact ⟨hact, rfl⟩
  | cons call rest ih =>
    intro priv priv1 hact h
    unfold input_task_calls at h
    cases hc : input_task_call task call priv with
    | none => simp [hc] at h
    | some p =>
      simp only [hc] at h
      obtain ⟨ha, hn⟩ := input_task_call_inactive task call priv p hact hc
      obtain ⟨ha1, hn1⟩ := ih p priv1 ha h
      exact ⟨ha1, hn1.trans hn⟩

/-- C19: the flag `active` is `TRUE` after `ufo_input_task_new`; once it is `FALSE`
every operation of the input task (`stop`, `release_input_buffer`,
`get_input_buffer`, `get_requisition`, `process`) that returns leaves it
`FALSE` and leaves the number of calls of the wrapped task's `process`
unchanged; a `process` that returns `FALSE` leaves the flag `FALSE`; hence
after a `process` that returned `FALSE`, whatever operations follow, every
later `process` returns `FALSE` and does not call the wrapped task. -/
theorem ufo_input_task_active_latches {W : Type} (task : UfoTask W) :
    (∀ wrapped, (ufo_input_task_new task wrapped).active = true) ∧
    (∀ (calls : List InputTaskCall) (priv priv1 : UfoInputTaskPrivate W),
      priv.active = false → input_task_calls task calls priv = some priv1 →
      priv1.active = false ∧ priv1.process_calls = priv.process_calls) ∧
    (∀ (priv : UfoInputTaskPrivate W) output requisition,
      (ufo_input_task_process task priv output requisition).1 = false →
      (ufo_input_task_process task priv output requisition).2.active = false) ∧
    (∀ (priv priv1 : UfoInputTaskPrivate W) output requisition
        (calls : List InputTaskCall) output1 requisition1,
      (ufo_input_task_process task priv output requisition).1 = false →
      input_task_calls task calls (ufo_input_task_process task priv output requisition).2 =
        some priv1 →
      (ufo_input_task_process task priv1 output1 requisition1).1 = false ∧
      (ufo_input_task_process task priv1 output1 requisition1).2.process_calls =
        (ufo_input_task_process task priv output requisition).2.process_calls) := by
  refine ⟨fun _ => rfl, input_task_calls_inactive task, ?_, ?_⟩
  · intro priv output requisition h
    rw [ufo_input_task_process_returns_active]
    exact h
  · intro priv priv1 output requisition calls output1 requisition1 hret hcalls
    have hact : (ufo_input_task_process task priv output requisition).2.active = false := by
      rw [ufo_input_task_process_returns_active]
      exact hret
    obtain ⟨ha, hn⟩ := input_task_calls_inactive task calls _ priv1 hact hcalls
    rw [ufo_input_task_process_inactive task priv1 output1 requisition1 ha]
    exact ⟨rfl, hn⟩

theorem ufo_input_task_active_latches_witness :
    (ufo_input_task_process (const_task false) popped_state 0
      { n_dims := 1, dims := [1] }).1 = false ∧
    (∃ priv1,
      input_task_calls (const_task false)
          [InputTaskCall.release_input_buffer 0 8, InputTaskCall.get_requisition,
            InputTaskCall.get_input_buffer 0]
          (ufo_input_task_process (const_task false) popped_state 0
            { n_dims := 1, dims := [1] }).2 = some priv1 ∧
      (ufo_input_task_process (const_task false) priv1 0 { n_dims := 1, dims := [1] }).1 =
        false ∧
      (ufo_input_task_process (const_task false) priv1 0
          { n_dims := 1, dims := [1] }).2.process_calls =
        (ufo_input_task_process (const_task false) popped_state 0
          { n_dims := 1, dims := [1] }).2.process_calls) := by
  have hret : (ufo_input_task_process (const_task false) popped_state 0
      { n_dims := 1, dims := [1] }).1 = false := by decide
  have hrun : ∃ priv1, input_task_calls (const_task false)
      [InputTaskCall.release_input_buffer 0 8, InputTaskCall.get_requisition,
        InputTaskCall.get_input_buffer 0]
      (ufo_input_task_process (const_task false) popped_state 0
        { n_dims := 1, dims := [1] }).2 = some priv1 := ⟨_, rfl⟩
  obtain ⟨priv1, hp⟩ := hrun
  exact ⟨hret, priv1, hp,
    (ufo_input_task_active_latches (const_task false)).2.2.2 popped_state priv1 0
      { n_dims := 1, dims := [1] } _ 0 { n_dims := 1, dims := [1] } hret hp⟩

end Ufo
